import Mathlib

/-! Stream reader (`stream_reader.go`).

A shallow embedding of the server-sent-event stream reader: the line framer
(`bufio.Reader.ReadBytes`), the frame classifier (`processLines`) and the error
accumulator path (`unmarshalError`), followed by the properties proved about them.

Conventions of the embedding.
* A byte is a natural number; a byte sequence is a list of them.
* A Go slice that the code compares with `nil` is an `Option`: `none` is `nil`.
* A Go `error` result is an `Option StreamError`: `none` is `nil`.
* The scan loop of `processLines` is a function with fuel; it answers `none` only
  when the fuel is used up, which `RecvRaw` excludes by giving one unit per
  remaining byte plus one.
-/

namespace StreamReader

/-- Byte sequences (`[]byte`). -/
abbrev ByteSeq := List Nat

/-- Number of values of Go's `uint` on a 64-bit target. -/
def uintSize : Nat := 2 ^ 64

/-- The marker of a data line: the bytes of `data:`. -/
def headerData : ByteSeq := [100, 97, 116, 97, 58]

/-- The opening of an in-band error record: the bytes of `{"error":`. -/
def errorPrefix : ByteSeq := [123, 34, 101, 114, 114, 111, 114, 34, 58]

/-- The termination sentinel: the bytes of `[DONE]`. -/
def doneMarker : ByteSeq := [91, 68, 79, 78, 69, 93]

/-- Modelled from the spec: the error object shape `error: (message, type, ...)` of
section 6; the declaration of `APIError` is not part of the source file. -/
structure APIError where
  Message : ByteSeq
  Type_ : ByteSeq
deriving DecidableEq, Repr

/-- Modelled from the spec: the decoded error payload, a possibly absent error
object (`ErrorResponse` with its pointer field `Error`). -/
structure ErrorResponse where
  Error : Option APIError
deriving DecidableEq, Repr

/-- Error values seen by a caller of the reader. -/
inductive StreamError where
  | EOF
  | ErrTooManyEmptyStreamMessages
  | wrapped (e : Option APIError)
  | other (code : Nat)
deriving DecidableEq, Repr

/-! ## White space, as `bytes.TrimSpace` sees it -/

/-- UTF-8 encodings of the code points that `unicode.IsSpace` accepts:
U+0009..U+000D, U+0020, U+0085, U+00A0, U+1680, U+2000..U+200A, U+2028, U+2029,
U+202F, U+205F, U+3000. -/
def spaceRunes : List ByteSeq :=
  [[9], [10], [11], [12], [13], [32],
   [194, 133], [194, 160],
   [225, 154, 128],
   [226, 128, 128], [226, 128, 129], [226, 128, 130], [226, 128, 131],
   [226, 128, 132], [226, 128, 133], [226, 128, 134], [226, 128, 135],
   [226, 128, 136], [226, 128, 137], [226, 128, 138],
   [226, 128, 168], [226, 128, 169], [226, 128, 175],
   [226, 129, 159],
   [227, 128, 128]]

/-- The white-space rune a byte sequence starts with, if any. -/
def leadingSpace (s : ByteSeq) : Option ByteSeq :=
  spaceRunes.find? (fun r => r.isPrefixOf s)

/-- The white-space rune a byte sequence ends with, if any. -/
def trailingSpace (s : ByteSeq) : Option ByteSeq :=
  spaceRunes.find? (fun r => r.isSuffixOf s)

/-- Slices off leading white-space runes (`bytes.TrimLeftFunc` with
`unicode.IsSpace`); one unit of fuel per rune removed. -/
def trimLeftSpace : Nat → ByteSeq → ByteSeq
  | 0, s => s
  | n + 1, s =>
    match leadingSpace s with
    | none => s
    | some r => trimLeftSpace n (s.drop r.length)

/-- Slices off trailing white-space runes (`bytes.TrimRightFunc` with
`unicode.IsSpace`); one unit of fuel per rune removed. -/
def trimRightSpace : Nat → ByteSeq → ByteSeq
  | 0, s => s
  | n + 1, s =>
    match trailingSpace s with
    | none => s
    | some r => trimRightSpace n (s.take (s.length - r.length))

/-- Go's `bytes.TrimSpace`: leading and trailing white space, as defined by
Unicode, is sliced off; the result is `nil` when nothing is left. -/
def TrimSpace (s : ByteSeq) : Option ByteSeq :=
  let t := trimRightSpace s.length (trimLeftSpace s.length s)
  if t = [] then none else some t

/-- Go's `bytes.HasPrefix` on a possibly nil slice. -/
def HasPrefix (s : Option ByteSeq) (p : ByteSeq) : Bool :=
  p.isPrefixOf (s.getD [])

/-- Go's `bytes.TrimPrefix` on a possibly nil slice: `s[len(prefix):]` when the
prefix is there, `s` itself otherwise. -/
def TrimPrefix (s : Option ByteSeq) (p : ByteSeq) : Option ByteSeq :=
  if HasPrefix s p then some ((s.getD []).drop p.length) else s

/-! ## The collaborators of a session -/

/-- The line framer's byte source, a `bufio.Reader` over the response body: the
bytes not yet read, and the failure the source reports once they are used up. -/
structure Reader where
  buf : ByteSeq
  err : StreamError
deriving DecidableEq, Repr

/-- Splits off the first line, delimiter included, when there is a delimiter. -/
def splitLine : ByteSeq → Option (ByteSeq × ByteSeq)
  | [] => none
  | b :: rest =>
    if b = 10 then some ([10], rest)
    else
      match splitLine rest with
      | none => none
      | some (line, rest') => some (b :: line, rest')

/-- Result of one `ReadBytes` call. -/
structure ReadResult where
  line : ByteSeq
  err : Option StreamError
  reader : Reader

/-- The call `reader.ReadBytes('\n')` of `bufio.Reader`: the bytes up to and
including the first newline; when the source ends first, the bytes read so far
together with the source's failure. -/
def Reader.ReadBytes (r : Reader) : ReadResult :=
  match splitLine r.buf with
  | some (line, rest) => ⟨line, none, { r with buf := rest }⟩
  | none => ⟨r.buf, some r.err, { r with buf := [] }⟩

/-- Modelled from the spec: the Error Accumulator of section 4.3, an append-only
buffer of raw byte chunks (`utils.ErrorAccumulator`, declared outside the source
file). Section 4.1 lets a write fail: `writeErr` is the failure its writes
report, `none` for the in-memory buffer, whose writes always succeed. -/
structure ErrorAccumulator where
  buf : ByteSeq
  writeErr : Option StreamError
deriving DecidableEq, Repr

/-- The accumulated bytes, `errAccumulator.Bytes()`. -/
def ErrorAccumulator.Bytes (a : ErrorAccumulator) : ByteSeq := a.buf

/-- The call `errAccumulator.Write(p)`: the chunk is appended, or the write fails
and the buffer is left as it was. -/
def ErrorAccumulator.Write (a : ErrorAccumulator) (p : Option ByteSeq) :
    ErrorAccumulator × Option StreamError :=
  match a.writeErr with
  | some e => (a, some e)
  | none => ({ a with buf := a.buf ++ p.getD [] }, none)

/-- Modelled from the spec: the JSON decode-into-shape primitive of section 6
(`utils.Unmarshaler`, declared outside the source file). `Unmarshal data v`
gives the value left in the target and the error; `UnmarshalError data` does the
same for a target of type pointer to `ErrorResponse` that starts as `nil`. -/
structure Unmarshaler (T : Type) where
  Unmarshal : ByteSeq → T → T × Option StreamError
  UnmarshalError : ByteSeq → Option ErrorResponse × Option StreamError

/-- The session, `streamReader[T]`; the HTTP response and header are left out. -/
structure streamReader (T : Type) where
  emptyMessagesLimit : Nat
  isFinished : Bool
  reader : Reader
  errAccumulator : ErrorAccumulator
  unmarshaler : Unmarshaler T

/-- What a pull hands back: the frame (`nil` is `none`) and the error. -/
structure RawResult where
  frame : Option ByteSeq
  err : Option StreamError
deriving DecidableEq, Repr

variable {T : Type}

/-- The method `unmarshalError`: no error object when nothing is accumulated or
when the accumulated bytes do not decode. -/
def streamReader.unmarshalError (stream : streamReader T) : Option ErrorResponse :=
  let errBytes := stream.errAccumulator.Bytes
  if errBytes.length = 0 then none
  else
    let r := stream.unmarshaler.UnmarshalError errBytes
    if r.2 ≠ none then none else r.1

/-- The scan loop of `processLines`, one unit of fuel per iteration, with the
loop's local variables as arguments. -/
def processLinesLoop : Nat → streamReader T → Nat → Bool → Option ByteSeq →
    Option (RawResult × streamReader T)
  | 0, _, _, _, _ => none
  | fuel + 1, stream, emptyMessagesCount, hasErrorPrefix, noPrefixLine =>
    let rd := stream.reader.ReadBytes
    let stream1 := { stream with reader := rd.reader }
    if rd.err ≠ none ∨ hasErrorPrefix = true then
      match stream1.unmarshalError with
      | some respErr => some (⟨none, some (StreamError.wrapped respErr.Error)⟩, stream1)
      | none => some (⟨none, rd.err⟩, stream1)
    else
      let noSpaceLine := TrimSpace rd.line
      let isData := HasPrefix noSpaceLine headerData
      let noPrefixLine1 :=
        if isData then
          let t := TrimPrefix noSpaceLine headerData
          if HasPrefix t [32] then TrimSpace (t.getD []) else t
        else noPrefixLine
      let hasErrorPrefix1 :=
        if isData && HasPrefix noPrefixLine1 errorPrefix then true else hasErrorPrefix
      if !isData || hasErrorPrefix1 then
        let w :=
          if noPrefixLine1 = none ∧ noSpaceLine ≠ none then
            stream1.errAccumulator.Write noSpaceLine
          else stream1.errAccumulator.Write noPrefixLine1
        let stream2 := { stream1 with errAccumulator := w.1 }
        match w.2 with
        | some writeErr => some (⟨none, some writeErr⟩, stream2)
        | none =>
          let emptyMessagesCount1 := (emptyMessagesCount + 1) % uintSize
          if emptyMessagesCount1 > stream2.emptyMessagesLimit then
            some (⟨none, some StreamError.ErrTooManyEmptyStreamMessages⟩, stream2)
          else processLinesLoop fuel stream2 emptyMessagesCount1 hasErrorPrefix1 noPrefixLine1
      else if noPrefixLine1.getD [] = doneMarker then
        some (⟨none, some StreamError.EOF⟩, { stream1 with isFinished := true })
      else some (⟨noPrefixLine1, none⟩, stream1)

/-- The method `processLines`: the scan loop from a zero counter, no error prefix
seen and a `nil` payload, with fuel for every remaining byte and one more. -/
def streamReader.processLines (stream : streamReader T) :
    Option (RawResult × streamReader T) :=
  processLinesLoop (stream.reader.buf.length + 1) stream 0 false none

/-- The method `RecvRaw`. -/
def streamReader.RecvRaw (stream : streamReader T) : Option (RawResult × streamReader T) :=
  if stream.isFinished then some (⟨none, some StreamError.EOF⟩, stream)
  else stream.processLines

/-- The method `Recv`: the raw pull, then the decoding of the frame into a
response that starts as the zero value. -/
def streamReader.Recv [Inhabited T] (stream : streamReader T) :
    Option ((T × Option StreamError) × streamReader T) :=
  match stream.RecvRaw with
  | none => none
  | some (raw, stream1) =>
    match raw.err with
    | some err => some ((default, some err), stream1)
    | none =>
      let r := stream1.unmarshaler.Unmarshal (raw.frame.getD []) default
      some (r, stream1)

/-! ## Helpers for stating the properties -/

/-- Bytes of an ASCII string, for examples. -/
def ascii (s : String) : ByteSeq := s.toList.map Char.toNat


/-- White-space bytes that can stand inside a line: tab, vertical tab, form feed,
carriage return and space. -/
def inlineSpaces : ByteSeq := [9, 11, 12, 13, 32]

/-- The session once the source has been read up to `rest`. -/
def streamReader.advance (stream : streamReader T) (rest : ByteSeq) : streamReader T :=
  { stream with reader := ⟨rest, stream.reader.err⟩ }

/-- The session once a chunk has been appended to the accumulated error bytes. -/
def streamReader.accumulate (stream : streamReader T) (chunk : ByteSeq) : streamReader T :=
  { stream with errAccumulator := { stream.errAccumulator with
      buf := stream.errAccumulator.buf ++ chunk } }

/-- A data line: the marker, white space `ws1`, the payload, white space `ws2` and
the newline. -/
def dataLine (ws1 p ws2 : ByteSeq) : ByteSeq := headerData ++ ws1 ++ p ++ ws2 ++ [10]

/-- The lines of a list, each closed by a newline, one after the other. -/
def joinLines : List ByteSeq → ByteSeq
  | [] => []
  | l :: ls => l ++ 10 :: joinLines ls

/-- The white-space-trimmed content of a line. -/
def trimmedLine (l : ByteSeq) : ByteSeq := (TrimSpace (l ++ [10])).getD []

/-- A line without newline inside that does not start, once trimmed, with the
marker `data:`. -/
def nonDataLine (l : ByteSeq) : Prop :=
  10 ∉ l ∧ HasPrefix (TrimSpace (l ++ [10])) headerData = false

instance : DecidablePred nonDataLine := fun l => by
  unfold nonDataLine
  infer_instance

/-- A line of white space only. -/
def blankLine (l : ByteSeq) : Prop := 10 ∉ l ∧ TrimSpace (l ++ [10]) = none

instance : DecidablePred blankLine := fun l => by
  unfold blankLine
  infer_instance

/-- A payload without newline and without white space around it. -/
def cleanPayload (p : ByteSeq) : Prop :=
  p ≠ [] ∧ 10 ∉ p ∧ leadingSpace p = none ∧ trailingSpace p = none

instance : DecidablePred cleanPayload := fun p => by
  unfold cleanPayload
  infer_instance

/-- A payload that is delivered as a frame: clean, not the sentinel `[DONE]` and
not the start of an error record. -/
def framePayload (p : ByteSeq) : Prop :=
  cleanPayload p ∧ p ≠ doneMarker ∧ ¬ errorPrefix <+: p

instance : DecidablePred framePayload := fun p => by
  unfold framePayload
  infer_instance

/-- The trimmed contents of a list of lines, one after the other. -/
def trimmedLines : List ByteSeq → ByteSeq
  | [] => []
  | l :: ls => trimmedLine l ++ trimmedLines ls

/-- The stream of the data lines `data: p` for the payloads of a list, closed by
the line `data: [DONE]`. -/
def dataStream : List ByteSeq → ByteSeq
  | [] => dataLine [32] doneMarker []
  | p :: ps => dataLine [32] p [] ++ dataStream ps

/-- The results of `n` successive `RecvRaw` calls and the session after them. -/
def recvRawN : Nat → streamReader T → Option (List RawResult × streamReader T)
  | 0, stream => some ([], stream)
  | n + 1, stream =>
    match stream.RecvRaw with
    | none => none
    | some (r, stream1) =>
      match recvRawN n stream1 with
      | none => none
      | some (rs, stream2) => some (r :: rs, stream2)

/-- The payload `{"id":1}`. -/
def idPayload : ByteSeq := [123, 34, 105, 100, 34, 58, 49, 125]

/-- The payload `{"a":1}`. -/
def aPayload : ByteSeq := [123, 34, 97, 34, 58, 49, 125]

/-- The error body `{"error":{"message":"x","type":"y"}}`. -/
def errorBody : ByteSeq :=
  [123, 34, 101, 114, 114, 111, 114, 34, 58, 123, 34, 109, 101, 115, 115, 97, 103, 101, 34,
   58, 34, 120, 34, 44, 34, 116, 121, 112, 101, 34, 58, 34, 121, 34, 125, 125]

/-- An unmarshaler for examples: it decodes the one error body
`{"error":{"message":"x","type":"y"}}` and rejects every other input. -/
def sampleUnmarshaler : Unmarshaler Unit where
  Unmarshal := fun _ v => (v, none)
  UnmarshalError := fun data =>
    if data = errorBody then
      (some { Error := some { Message := ascii "x", Type_ := ascii "y" } }, none)
    else (none, some (StreamError.other 1))

/-- A session for examples: the given tolerance, not finished, a source that
ends with `io.EOF` after the given bytes, an empty in-memory accumulator. -/
def sampleSession (limit : Nat) (src : ByteSeq) : streamReader Unit :=
  ⟨limit, false, ⟨src, StreamError.EOF⟩, ⟨[], none⟩, sampleUnmarshaler⟩

/-- An unmarshaler into `Nat` for examples: it decodes the payload `{"id":1}` to
`1` and fails on every other input, leaving the target as it was; error bodies
are decoded as by `sampleUnmarshaler`. -/
def idUnmarshaler : Unmarshaler Nat where
  Unmarshal := fun data v =>
    if data = idPayload then (1, none) else (v, some (StreamError.other 2))
  UnmarshalError := sampleUnmarshaler.UnmarshalError

/-- A session over `Nat` for examples, as `sampleSession` with `idUnmarshaler`. -/
def idSession (limit : Nat) (src : ByteSeq) : streamReader Nat :=
  ⟨limit, false, ⟨src, StreamError.EOF⟩, ⟨[], none⟩, idUnmarshaler⟩

/-- Whether the classifier takes a line for a data line: the trimmed line starts
with the marker `data:`. -/
def isDataLine (l : ByteSeq) : Bool := HasPrefix (TrimSpace (l ++ [10])) headerData

/-- The payload the classifier extracts from a data line: the trimmed line
without the marker, trimmed again when a space follows the marker. -/
def linePayload (l : ByteSeq) : Option ByteSeq :=
  if HasPrefix (TrimPrefix (TrimSpace (l ++ [10])) headerData) [32] then
    TrimSpace ((TrimPrefix (TrimSpace (l ++ [10])) headerData).getD [])
  else TrimPrefix (TrimSpace (l ++ [10])) headerData

/-- An error record: a data line whose payload starts with `{"error":`. -/
def isErrorRecord (l : ByteSeq) : Bool :=
  isDataLine l && HasPrefix (linePayload l) errorPrefix

/-- The bytes that the lines read by one pull add to the accumulator: the trimmed
content of every non-data line in reading order and then, when an error record is
read, its payload; nothing for a data line returned as a frame, for the line
`[DONE]` and for a line read after the error record. -/
def accumulatedBytes : List ByteSeq → ByteSeq
  | [] => []
  | l :: ls =>
    if isDataLine l then
      if isErrorRecord l then (linePayload l).getD [] else []
    else trimmedLine l ++ accumulatedBytes ls

/-- A stream of blocks, each a run of lines followed by the data line `data: p`
of the block. -/
def blockStream : List (List ByteSeq × ByteSeq) → ByteSeq
  | [] => []
  | b :: bs => joinLines b.1 ++ (dataLine [32] b.2 [] ++ blockStream bs)

/-- A run of white-space runes, one after the other. -/
def concatRunes : List ByteSeq → ByteSeq
  | [] => []
  | r :: rs => r ++ concatRunes rs

/-! ## Facts about white space and `TrimSpace` -/

theorem spaceRunes_shape :
    ∀ r ∈ spaceRunes, r ≠ [] ∧ (r.length = 1 ∨ ∀ b ∈ r, 128 ≤ b) := by
  decide

theorem leadingSpace_eq_none {s : ByteSeq} :
    leadingSpace s = none ↔ ∀ r ∈ spaceRunes, ¬ r <+: s := by
  simp [leadingSpace, List.find?_eq_none]

theorem trailingSpace_eq_none {s : ByteSeq} :
    trailingSpace s = none ↔ ∀ r ∈ spaceRunes, ¬ r <:+ s := by
  simp [trailingSpace, List.find?_eq_none]

theorem leadingSpace_some {s r : ByteSeq} (h : leadingSpace s = some r) :
    r ∈ spaceRunes ∧ r <+: s := by
  unfold leadingSpace at h
  have h1 := List.find?_some h
  have h2 := List.mem_of_find?_eq_some h
  exact ⟨h2, by simpa using h1⟩

theorem trailingSpace_some {s r : ByteSeq} (h : trailingSpace s = some r) :
    r ∈ spaceRunes ∧ r <:+ s := by
  unfold trailingSpace at h
  have h1 := List.find?_some h
  have h2 := List.mem_of_find?_eq_some h
  exact ⟨h2, by simpa using h1⟩

theorem leadingSpace_inline (b : Nat) (s : ByteSeq) (hb : b ∈ inlineSpaces) :
    leadingSpace (b :: s) = some [b] := by
  simp only [inlineSpaces, List.mem_cons, List.mem_singleton, List.not_mem_nil, or_false] at hb
  rcases hb with h | h | h | h | h <;> subst h <;>
    simp [leadingSpace, spaceRunes, List.find?, List.isPrefixOf]

theorem trailingSpace_inline (b : Nat) (s : ByteSeq) (hb : b ∈ 10 :: inlineSpaces) :
    trailingSpace (s ++ [b]) = some [b] := by
  simp only [inlineSpaces, List.mem_cons, List.mem_singleton, List.not_mem_nil, or_false] at hb
  rcases hb with h | h | h | h | h | h <;> subst h <;>
    simp [trailingSpace, spaceRunes, List.find?, List.isSuffixOf, List.isPrefixOf_cons₂]

theorem trimLeftSpace_of_none (n : Nat) {s : ByteSeq} (h : leadingSpace s = none) :
    trimLeftSpace n s = s := by
  cases n <;> simp [trimLeftSpace, h]

theorem trimRightSpace_of_none (n : Nat) {s : ByteSeq} (h : trailingSpace s = none) :
    trimRightSpace n s = s := by
  cases n <;> simp [trimRightSpace, h]

theorem trimLeftSpace_inline (ws s : ByteSeq) (n : Nat) (hws : ∀ b ∈ ws, b ∈ inlineSpaces)
    (hn : ws.length ≤ n) (hs : leadingSpace s = none) :
    trimLeftSpace n (ws ++ s) = s := by
  induction ws generalizing n with
  | nil => simpa using trimLeftSpace_of_none n hs
  | cons b ws ih =>
    cases n with
    | zero => simp at hn
    | succ n =>
      have hb := leadingSpace_inline b (ws ++ s) (hws b (by simp))
      simp only [List.cons_append, trimLeftSpace, hb, List.length_singleton,
        List.drop_succ_cons, List.drop_zero]
      exact ih n (fun c hc => hws c (by simp [hc])) (by simpa using hn)

theorem trimRightSpace_inline (s ws : ByteSeq) (n : Nat)
    (hws : ∀ b ∈ ws, b ∈ 10 :: inlineSpaces) (hn : ws.length ≤ n)
    (hs : trailingSpace s = none) :
    trimRightSpace n (s ++ ws) = s := by
  induction ws using List.reverseRecOn generalizing n with
  | nil => simpa using trimRightSpace_of_none n hs
  | append_singleton ws b ih =>
    cases n with
    | zero => simp at hn
    | succ n =>
      have hb := trailingSpace_inline b (s ++ ws) (hws b (by simp))
      rw [← List.append_assoc]
      simp only [trimRightSpace, hb, List.length_append, List.length_singleton,
        Nat.add_sub_cancel]
      rw [← List.length_append, List.take_left]
      exact ih n (fun c hc => hws c (by simp [hc])) (by simpa using hn)

theorem suffix_of_suffix_append {r a p : ByteSeq} (hp : p ≠ [])
    (hr : r.length = 1 ∨ ∀ b ∈ r, 128 ≤ b) (ha : ∀ b ∈ a, b < 128)
    (h : r <:+ a ++ p) : r <:+ p := by
  induction a with
  | nil => simpa using h
  | cons x a ih =>
    rw [List.cons_append, List.suffix_cons_iff] at h
    rcases h with h | h
    · exfalso
      subst h
      rcases hr with hr | hr
      · simp at hr
        exact hp hr.2
      · have h1 := hr x (by simp)
        have h2 := ha x (by simp)
        omega
    · exact ih (fun b hb => ha b (by simp [hb])) h

theorem trailingSpace_append_left {a p : ByteSeq} (hp : p ≠ [])
    (ha : ∀ b ∈ a, b < 128) (h : trailingSpace p = none) :
    trailingSpace (a ++ p) = none := by
  rw [trailingSpace_eq_none] at h ⊢
  intro r hr hsuf
  exact h r hr (suffix_of_suffix_append hp (spaceRunes_shape r hr).2 ha hsuf)

theorem trimLeftSpace_suffix (n : Nat) (s : ByteSeq) : trimLeftSpace n s <:+ s := by
  induction n generalizing s with
  | zero => exact List.suffix_refl s
  | succ n ih =>
    unfold trimLeftSpace
    split
    · exact List.suffix_refl s
    · exact (ih _).trans (List.drop_suffix _ _)

theorem trimRightSpace_prefix (n : Nat) (s : ByteSeq) : trimRightSpace n s <+: s := by
  induction n generalizing s with
  | zero => exact List.prefix_refl s
  | succ n ih =>
    unfold trimRightSpace
    split
    · exact List.prefix_refl s
    · exact (ih _).trans (List.take_prefix _ _)

theorem leadingSpace_trimLeftSpace (n : Nat) (s : ByteSeq) (hn : s.length ≤ n) :
    leadingSpace (trimLeftSpace n s) = none := by
  induction n generalizing s with
  | zero =>
    have : s = [] := List.length_eq_zero.mp (Nat.le_zero.mp hn)
    subst this
    rfl
  | succ n ih =>
    unfold trimLeftSpace
    split
    · assumption
    · rename_i r hr
      have h1 := leadingSpace_some hr
      have h2 := (spaceRunes_shape r h1.1).1
      have h3 : 0 < r.length := List.length_pos.mpr h2
      apply ih
      rw [List.length_drop]
      omega

theorem trailingSpace_trimRightSpace (n : Nat) (s : ByteSeq) (hn : s.length ≤ n) :
    trailingSpace (trimRightSpace n s) = none := by
  induction n generalizing s with
  | zero =>
    have : s = [] := List.length_eq_zero.mp (Nat.le_zero.mp hn)
    subst this
    rfl
  | succ n ih =>
    unfold trimRightSpace
    split
    · assumption
    · rename_i r hr
      have h1 := trailingSpace_some hr
      have h2 := (spaceRunes_shape r h1.1).1
      have h3 : 0 < r.length := List.length_pos.mpr h2
      apply ih
      rw [List.length_take]
      omega

theorem TrimSpace_some {s t : ByteSeq} (h : TrimSpace s = some t) :
    t ≠ [] ∧ leadingSpace t = none ∧ trailingSpace t = none := by
  unfold TrimSpace at h
  simp only at h
  split at h
  · exact absurd h (by simp)
  · rename_i hne
    have ht : trimRightSpace s.length (trimLeftSpace s.length s) = t := by simpa using h
    have hlen : (trimLeftSpace s.length s).length ≤ s.length :=
      (trimLeftSpace_suffix _ _).length_le
    refine ⟨ht ▸ hne, ?_, ?_⟩
    · have hl := leadingSpace_trimLeftSpace s.length s (Nat.le_refl _)
      rw [leadingSpace_eq_none] at hl ⊢
      intro r hr hpre
      exact hl r hr (hpre.trans (ht ▸ trimRightSpace_prefix _ _))
    · rw [← ht]
      exact trailingSpace_trimRightSpace _ _ hlen

theorem leadingSpace_headerData (s : ByteSeq) : leadingSpace (headerData ++ s) = none := by
  simp [leadingSpace, spaceRunes, List.find?, headerData, List.isPrefixOf_cons₂]

theorem inlineSpaces_lt {b : Nat} (hb : b ∈ inlineSpaces) : b < 128 := by
  simp only [inlineSpaces, List.mem_cons, List.mem_singleton, List.not_mem_nil, or_false] at hb
  omega

theorem TrimSpace_dataLine (ws1 p ws2 : ByteSeq) (hws1 : ∀ b ∈ ws1, b ∈ inlineSpaces)
    (hws2 : ∀ b ∈ ws2, b ∈ inlineSpaces) (hp : p ≠ []) (ht : trailingSpace p = none) :
    TrimSpace (headerData ++ ws1 ++ p ++ ws2 ++ [10]) = some (headerData ++ ws1 ++ p) := by
  have hlead : leadingSpace (headerData ++ ws1 ++ p ++ ws2 ++ [10]) = none := by
    simpa [List.append_assoc] using leadingSpace_headerData (ws1 ++ (p ++ (ws2 ++ [10])))
  have htrail : trailingSpace (headerData ++ ws1 ++ p) = none := by
    apply trailingSpace_append_left hp _ ht
    intro b hb
    rcases List.mem_append.mp hb with h | h
    · simp only [headerData, List.mem_cons, List.mem_singleton, List.not_mem_nil, or_false] at h
      omega
    · exact inlineSpaces_lt (hws1 b h)
  have hright : trimRightSpace (headerData ++ ws1 ++ p ++ (ws2 ++ [10])).length
      (headerData ++ ws1 ++ p ++ (ws2 ++ [10])) = headerData ++ ws1 ++ p := by
    apply trimRightSpace_inline _ _ _ _ _ htrail
    · intro b hb
      rcases List.mem_append.mp hb with h | h
      · exact List.mem_cons_of_mem _ (hws2 b h)
      · simp at h
        simp [h]
    · simp only [List.length_append]
      omega
  unfold TrimSpace
  simp only [trimLeftSpace_of_none _ hlead]
  rw [List.append_assoc (headerData ++ ws1 ++ p) ws2 [10], hright]
  simp [headerData]

theorem TrimSpace_lead (ws p : ByteSeq) (hws : ∀ b ∈ ws, b ∈ inlineSpaces) (hp : p ≠ [])
    (hl : leadingSpace p = none) (ht : trailingSpace p = none) :
    TrimSpace (ws ++ p) = some p := by
  have h1 : trimLeftSpace (ws ++ p).length (ws ++ p) = p :=
    trimLeftSpace_inline ws p _ hws (by simp) hl
  unfold TrimSpace
  simp only [h1, trimRightSpace_of_none _ ht]
  simp [hp]

theorem head_ne_space {p : ByteSeq} (hl : leadingSpace p = none) :
    List.isPrefixOf [32] p = false := by
  cases p with
  | nil => rfl
  | cons b p =>
    by_cases hb : b = 32
    · subst hb
      rw [leadingSpace_inline 32 p (by simp [inlineSpaces])] at hl
      exact absurd hl (by simp)
    · simp [List.isPrefixOf_cons₂, Ne.symm hb]

/-- The payload the classifier extracts from a trimmed data line whose marker is
followed by nothing or by white space that starts with a space. -/
theorem payload_of_trimmed (ws1 p : ByteSeq) (hws1 : ∀ b ∈ ws1, b ∈ inlineSpaces)
    (hhead : ws1 = [] ∨ ws1.head? = some 32) (hp : p ≠ [])
    (hl : leadingSpace p = none) (ht : trailingSpace p = none) :
    (if HasPrefix (TrimPrefix (some (headerData ++ ws1 ++ p)) headerData) [32] then
        TrimSpace ((TrimPrefix (some (headerData ++ ws1 ++ p)) headerData).getD [])
      else TrimPrefix (some (headerData ++ ws1 ++ p)) headerData) = some p := by
  have hpre : HasPrefix (some (headerData ++ ws1 ++ p)) headerData = true := by
    simp [HasPrefix, List.append_assoc]
  have htp : TrimPrefix (some (headerData ++ ws1 ++ p)) headerData = some (ws1 ++ p) := by
    unfold TrimPrefix
    rw [if_pos hpre]
    simp [List.append_assoc]
  rw [htp]
  rcases hhead with h | h
  · subst h
    simp [HasPrefix, head_ne_space hl]
  · cases ws1 with
    | nil => simp at h
    | cons b ws =>
      simp only [List.head?_cons, Option.some.injEq] at h
      subst h
      have : HasPrefix (some (32 :: ws ++ p)) [32] = true := by
        simp [HasPrefix, List.isPrefixOf_cons₂]
      rw [this]
      simpa using TrimSpace_lead (32 :: ws) p hws1 hp hl ht

theorem splitLine_line (l rest : ByteSeq) (hl : 10 ∉ l) :
    splitLine (l ++ 10 :: rest) = some (l ++ [10], rest) := by
  induction l with
  | nil => simp [splitLine]
  | cons b l ih =>
    have hb : b ≠ 10 := fun h => hl (by simp [h])
    have hl2 : 10 ∉ l := fun h => hl (by simp [h])
    simp [splitLine, hb, ih hl2]

theorem splitLine_none (l : ByteSeq) (hl : 10 ∉ l) : splitLine l = none := by
  induction l with
  | nil => rfl
  | cons b l ih =>
    have hb : b ≠ 10 := fun h => hl (by simp [h])
    have hl2 : 10 ∉ l := fun h => hl (by simp [h])
    simp [splitLine, hb, ih hl2]

theorem ReadBytes_line (r : Reader) (l rest : ByteSeq) (hl : 10 ∉ l)
    (hbuf : r.buf = l ++ 10 :: rest) :
    r.ReadBytes = ⟨l ++ [10], none, ⟨rest, r.err⟩⟩ := by
  simp [Reader.ReadBytes, hbuf, splitLine_line l rest hl]

theorem ReadBytes_fail (r : Reader) (hl : 10 ∉ r.buf) :
    r.ReadBytes = ⟨r.buf, some r.err, ⟨[], r.err⟩⟩ := by
  simp [Reader.ReadBytes, splitLine_none r.buf hl]

/-! ## One iteration of the scan loop -/

theorem unmarshalError_advance (s : streamReader T) (rest : ByteSeq) :
    (s.advance rest).unmarshalError = s.unmarshalError := rfl

/-- The read fails: the accumulated bytes decide between the remote error and the
read failure. -/
theorem loop_fail (f : Nat) (s : streamReader T) (c : Nat) (h : Bool) (npl : Option ByteSeq)
    (hl : 10 ∉ s.reader.buf) :
    processLinesLoop (f + 1) s c h npl =
      match s.unmarshalError with
      | some respErr => some (⟨none, some (StreamError.wrapped respErr.Error)⟩, s.advance [])
      | none => some (⟨none, some s.reader.err⟩, s.advance []) := by
  rw [processLinesLoop]
  simp only [ReadBytes_fail _ hl]
  simp [streamReader.advance, streamReader.unmarshalError]

/-- A line is read after an error record was seen. -/
theorem loop_afterError (f : Nat) (s : streamReader T) (c : Nat) (npl : Option ByteSeq)
    (l rest : ByteSeq) (hl : 10 ∉ l) (hbuf : s.reader.buf = l ++ 10 :: rest) :
    processLinesLoop (f + 1) s c true npl =
      match s.unmarshalError with
      | some respErr => some (⟨none, some (StreamError.wrapped respErr.Error)⟩, s.advance rest)
      | none => some (⟨none, none⟩, s.advance rest) := by
  rw [processLinesLoop]
  simp only [ReadBytes_line _ l rest hl hbuf]
  simp [streamReader.advance, streamReader.unmarshalError]

/-- A non-data line is read: its trimmed content goes to the accumulator and the
counter moves. -/
theorem loop_noise (f : Nat) (s : streamReader T) (c : Nat) (l rest : ByteSeq)
    (hl : nonDataLine l) (hbuf : s.reader.buf = l ++ 10 :: rest)
    (hw : s.errAccumulator.writeErr = none) :
    processLinesLoop (f + 1) s c false none =
      if (c + 1) % uintSize > s.emptyMessagesLimit then
        some (⟨none, some StreamError.ErrTooManyEmptyStreamMessages⟩,
          (s.advance rest).accumulate (trimmedLine l))
      else processLinesLoop f ((s.advance rest).accumulate (trimmedLine l))
        ((c + 1) % uintSize) false none := by
  rw [processLinesLoop]
  simp only [ReadBytes_line _ l rest hl.1 hbuf, hl.2]
  cases hts : TrimSpace (l ++ [10]) <;>
    simp [streamReader.advance, streamReader.accumulate, trimmedLine, hts,
      ErrorAccumulator.Write, hw]

/-- A non-data line is read and the accumulator refuses the write. -/
theorem loop_noise_writeFail (f : Nat) (s : streamReader T) (c : Nat) (l rest : ByteSeq)
    (e : StreamError) (hl : nonDataLine l) (hbuf : s.reader.buf = l ++ 10 :: rest)
    (hw : s.errAccumulator.writeErr = some e) :
    processLinesLoop (f + 1) s c false none = some (⟨none, some e⟩, s.advance rest) := by
  rw [processLinesLoop]
  simp only [ReadBytes_line _ l rest hl.1 hbuf, hl.2]
  cases hts : TrimSpace (l ++ [10]) <;>
    simp [streamReader.advance, ErrorAccumulator.Write, hw]

theorem dataLine_split (ws1 p ws2 rest : ByteSeq) :
    dataLine ws1 p ws2 ++ rest = (headerData ++ ws1 ++ p ++ ws2) ++ 10 :: rest := by
  simp [dataLine]

theorem dataLine_no_newline (ws1 p ws2 : ByteSeq) (hws1 : ∀ b ∈ ws1, b ∈ inlineSpaces)
    (hws2 : ∀ b ∈ ws2, b ∈ inlineSpaces) (hp : 10 ∉ p) :
    10 ∉ headerData ++ ws1 ++ p ++ ws2 := by
  have h1 : 10 ∉ ws1 := fun h => absurd (hws1 10 h) (by decide)
  have h2 : 10 ∉ ws2 := fun h => absurd (hws2 10 h) (by decide)
  simp [headerData, h1, h2, hp]

/-- What the classifier computes on a data line with a clean payload: the trimmed
line, and the payload once the marker is stripped. -/
theorem classify_dataLine (ws1 p ws2 : ByteSeq) (hws1 : ∀ b ∈ ws1, b ∈ inlineSpaces)
    (hhead : ws1 = [] ∨ ws1.head? = some 32) (hws2 : ∀ b ∈ ws2, b ∈ inlineSpaces)
    (hp : cleanPayload p) :
    TrimSpace (headerData ++ ws1 ++ p ++ ws2 ++ [10]) = some (headerData ++ ws1 ++ p) ∧
    HasPrefix (some (headerData ++ ws1 ++ p)) headerData = true ∧
    (if HasPrefix (TrimPrefix (some (headerData ++ ws1 ++ p)) headerData) [32] then
        TrimSpace ((TrimPrefix (some (headerData ++ ws1 ++ p)) headerData).getD [])
      else TrimPrefix (some (headerData ++ ws1 ++ p)) headerData) = some p :=
  ⟨TrimSpace_dataLine ws1 p ws2 hws1 hws2 hp.1 hp.2.2.2,
   by simp [HasPrefix, List.append_assoc],
   payload_of_trimmed ws1 p hws1 hhead hp.1 hp.2.2.1 hp.2.2.2⟩

/-- A data line that is no error record is read: the sentinel ends the stream,
any other payload is the frame. -/
theorem loop_data (f : Nat) (s : streamReader T) (c : Nat) (npl : Option ByteSeq)
    (ws1 p ws2 rest : ByteSeq) (hws1 : ∀ b ∈ ws1, b ∈ inlineSpaces)
    (hhead : ws1 = [] ∨ ws1.head? = some 32) (hws2 : ∀ b ∈ ws2, b ∈ inlineSpaces)
    (hp : cleanPayload p) (hne : ¬ errorPrefix <+: p)
    (hbuf : s.reader.buf = dataLine ws1 p ws2 ++ rest) :
    processLinesLoop (f + 1) s c false npl =
      if p = doneMarker then
        some (⟨none, some StreamError.EOF⟩, { s.advance rest with isFinished := true })
      else some (⟨some p, none⟩, s.advance rest) := by
  obtain ⟨h1, h2, h3⟩ := classify_dataLine ws1 p ws2 hws1 hhead hws2 hp
  have herr : HasPrefix (some p) errorPrefix = false :=
    Bool.eq_false_iff.mpr (fun h => hne (List.isPrefixOf_iff_prefix.mp h))
  rw [dataLine_split] at hbuf
  rw [processLinesLoop]
  simp only [ReadBytes_line _ _ rest (dataLine_no_newline ws1 p ws2 hws1 hws2 hp.2.1) hbuf,
    h1, h2, h3, herr]
  simp [streamReader.advance, herr]

/-- An error record is read: its payload goes to the accumulator, the counter
moves, and the loop goes on with the error prefix seen. -/
theorem loop_errorRecord (f : Nat) (s : streamReader T) (c : Nat) (npl : Option ByteSeq)
    (ws1 p ws2 rest : ByteSeq) (hws1 : ∀ b ∈ ws1, b ∈ inlineSpaces)
    (hhead : ws1 = [] ∨ ws1.head? = some 32) (hws2 : ∀ b ∈ ws2, b ∈ inlineSpaces)
    (hp : cleanPayload p) (he : errorPrefix <+: p)
    (hbuf : s.reader.buf = dataLine ws1 p ws2 ++ rest)
    (hw : s.errAccumulator.writeErr = none) :
    processLinesLoop (f + 1) s c false npl =
      if (c + 1) % uintSize > s.emptyMessagesLimit then
        some (⟨none, some StreamError.ErrTooManyEmptyStreamMessages⟩,
          (s.advance rest).accumulate p)
      else processLinesLoop f ((s.advance rest).accumulate p) ((c + 1) % uintSize) true
        (some p) := by
  obtain ⟨h1, h2, h3⟩ := classify_dataLine ws1 p ws2 hws1 hhead hws2 hp
  have herr : HasPrefix (some p) errorPrefix = true :=
    List.isPrefixOf_iff_prefix.mpr he
  rw [dataLine_split] at hbuf
  rw [processLinesLoop]
  simp only [ReadBytes_line _ _ rest (dataLine_no_newline ws1 p ws2 hws1 hws2 hp.2.1) hbuf,
    h1, h2, h3, herr]
  simp [streamReader.advance, streamReader.accumulate, ErrorAccumulator.Write, hw, herr]

theorem errorBody_ascii :
    errorBody = ascii "\x7b\"error\":\x7b\"message\":\"x\",\"type\":\"y\"\x7d\x7d" := by
  decide

/-! ## Pulls -/

theorem RecvRaw_unfinished (s : streamReader T) (h : s.isFinished = false) :
    s.RecvRaw = processLinesLoop (s.reader.buf.length + 1) s 0 false none := by
  simp [streamReader.RecvRaw, streamReader.processLines, h]

theorem RecvRaw_finished (s : streamReader T) (h : s.isFinished = true) :
    s.RecvRaw = some (⟨none, some StreamError.EOF⟩, s) := by
  simp [streamReader.RecvRaw, h]

theorem recvRawN_finished (n : Nat) (s : streamReader T) (h : s.isFinished = true) :
    recvRawN n s = some (List.replicate n ⟨none, some StreamError.EOF⟩, s) := by
  induction n with
  | zero => rfl
  | succ n ih => simp [recvRawN, RecvRaw_finished s h, ih, List.replicate_succ]

theorem recvRawN_succ (n : Nat) (s s1 s2 : streamReader T) (r : RawResult)
    (rs : List RawResult) (h1 : s.RecvRaw = some (r, s1))
    (h2 : recvRawN n s1 = some (rs, s2)) :
    recvRawN (n + 1) s = some (r :: rs, s2) := by
  simp [recvRawN, h1, h2]

theorem cleanPayload_doneMarker : cleanPayload doneMarker := by decide

theorem not_errorPrefix_doneMarker : ¬ errorPrefix <+: doneMarker := by decide

theorem inline_single : ∀ b ∈ [32], b ∈ inlineSpaces := by decide

theorem inline_nil : ∀ b ∈ ([] : ByteSeq), b ∈ inlineSpaces := by simp

/-- A pull whose next line is a data line with a frame payload returns it. -/
theorem RecvRaw_frame (s : streamReader T) (ws1 p ws2 rest : ByteSeq)
    (hfin : s.isFinished = false) (hws1 : ∀ b ∈ ws1, b ∈ inlineSpaces)
    (hhead : ws1 = [] ∨ ws1.head? = some 32) (hws2 : ∀ b ∈ ws2, b ∈ inlineSpaces)
    (hp : framePayload p) (hbuf : s.reader.buf = dataLine ws1 p ws2 ++ rest) :
    s.RecvRaw = some (⟨some p, none⟩, s.advance rest) := by
  rw [RecvRaw_unfinished s hfin,
    loop_data _ s 0 none ws1 p ws2 rest hws1 hhead hws2 hp.1 hp.2.2 hbuf, if_neg hp.2.1]

/-- A pull whose next line is the sentinel line ends the stream. -/
theorem RecvRaw_done (s : streamReader T) (rest : ByteSeq) (hfin : s.isFinished = false)
    (hbuf : s.reader.buf = dataLine [32] doneMarker [] ++ rest) :
    s.RecvRaw = some (⟨none, some StreamError.EOF⟩,
      { s.advance rest with isFinished := true }) := by
  rw [RecvRaw_unfinished s hfin,
    loop_data _ s 0 none [32] doneMarker [] rest inline_single (Or.inr rfl) inline_nil
      cleanPayload_doneMarker not_errorPrefix_doneMarker hbuf, if_pos rfl]

theorem recvRawN_dataStream (ps : List ByteSeq) (s : streamReader T) (rest : ByteSeq) (m : Nat)
    (hfin : s.isFinished = false) (hps : ∀ p ∈ ps, framePayload p)
    (hbuf : s.reader.buf = dataStream ps ++ rest) :
    recvRawN (ps.length + 1 + m) s =
      some (ps.map (fun p => (⟨some p, none⟩ : RawResult)) ++
          List.replicate (m + 1) ⟨none, some StreamError.EOF⟩,
        { s.advance rest with isFinished := true }) := by
  induction ps generalizing s with
  | nil =>
    have hd := RecvRaw_done s rest hfin hbuf
    have hn := recvRawN_finished m { s.advance rest with isFinished := true } rfl
    have := recvRawN_succ m s _ _ _ _ hd hn
    simpa [Nat.add_comm, List.replicate_succ] using this
  | cons p ps ih =>
    have hp := hps p (by simp)
    have hbuf2 : s.reader.buf = dataLine [32] p [] ++ (dataStream ps ++ rest) := by
      simp [hbuf, dataStream, List.append_assoc]
    have h1 := RecvRaw_frame s [32] p [] (dataStream ps ++ rest) hfin inline_single
      (Or.inr rfl) inline_nil hp hbuf2
    have h2 := ih (s.advance (dataStream ps ++ rest)) hfin
      (fun q hq => hps q (by simp [hq])) rfl
    have := recvRawN_succ _ s _ _ _ _ h1 h2
    have hlen : (p :: ps).length + 1 + m = ps.length + 1 + m + 1 := by
      simp only [List.length_cons]
      omega
    rw [hlen, this]
    rfl

/-! ## Runs of non-data lines -/

theorem advance_accumulate_nil (s : streamReader T) :
    (s.advance s.reader.buf).accumulate [] = s := by
  cases s with
  | mk l fin rd acc u =>
    cases rd
    cases acc
    simp [streamReader.advance, streamReader.accumulate]

theorem accumulate_step (s : streamReader T) (r1 r2 x y : ByteSeq) :
    (((s.advance r1).accumulate x).advance r2).accumulate y =
      (s.advance r2).accumulate (x ++ y) := by
  simp [streamReader.advance, streamReader.accumulate, List.append_assoc]

theorem loop_noise_run (ls : List ByteSeq) (f : Nat) (s : streamReader T) (c : Nat)
    (rest : ByteSeq) (hls : ∀ l ∈ ls, nonDataLine l)
    (hbuf : s.reader.buf = joinLines ls ++ rest)
    (hw : ls = [] ∨ s.errAccumulator.writeErr = none)
    (hc : ∀ j < ls.length, (c + j + 1) % uintSize ≤ s.emptyMessagesLimit)
    (hcu : c < uintSize) :
    processLinesLoop (ls.length + f) s c false none =
      processLinesLoop f ((s.advance rest).accumulate (trimmedLines ls))
        ((c + ls.length) % uintSize) false none := by
  induction ls generalizing s c with
  | nil =>
    have hb : s.reader.buf = rest := by simpa [joinLines] using hbuf
    subst hb
    simp [trimmedLines, advance_accumulate_nil, Nat.mod_eq_of_lt hcu]
  | cons l ls ih =>
    have hw1 : s.errAccumulator.writeErr = none := by
      rcases hw with h | h
      · exact absurd h (by simp)
      · exact h
    have hbuf1 : s.reader.buf = l ++ 10 :: (joinLines ls ++ rest) := by
      simp [hbuf, joinLines]
    have h0 : (c + 1) % uintSize ≤ s.emptyMessagesLimit := by
      simpa using hc 0 (by simp)
    have hfuel : (l :: ls).length + f = ls.length + f + 1 := by
      simp only [List.length_cons]
      omega
    rw [hfuel, loop_noise _ s c l _ (hls l (by simp)) hbuf1 hw1, if_neg (by omega)]
    rw [ih ((s.advance (joinLines ls ++ rest)).accumulate (trimmedLine l))
      ((c + 1) % uintSize) (fun q hq => hls q (by simp [hq])) rfl (Or.inr hw1)
      (by
        intro j hj
        have := hc (j + 1) (by simpa using hj)
        have e : ((c + 1) % uintSize + j + 1) % uintSize = (c + (j + 1) + 1) % uintSize := by
          rw [Nat.add_assoc, Nat.mod_add_mod]
          congr 1
          omega
        rw [e]
        exact this)
      (Nat.mod_lt _ (by decide))]
    rw [accumulate_step]
    have e2 : ((c + 1) % uintSize + ls.length) % uintSize =
        (c + (l :: ls).length) % uintSize := by
      rw [Nat.mod_add_mod]
      congr 1
      simp only [List.length_cons]
      omega
    rw [e2]
    rfl

theorem length_joinLines_le (ls : List ByteSeq) : ls.length ≤ (joinLines ls).length := by
  induction ls with
  | nil => simp
  | cons l ls ih =>
    simp only [joinLines, List.length_append, List.length_cons]
    omega

theorem blankLine_nonData {l : ByteSeq} (h : blankLine l) : nonDataLine l :=
  ⟨h.1, by rw [h.2]; rfl⟩

theorem trimmedLines_blank (ls : List ByteSeq) (h : ∀ l ∈ ls, blankLine l) :
    trimmedLines ls = [] := by
  induction ls with
  | nil => rfl
  | cons l ls ih =>
    have h1 : trimmedLine l = [] := by
      unfold trimmedLine
      rw [(h l (by simp)).2]
      rfl
    simp [trimmedLines, h1, ih (fun q hq => h q (by simp [hq]))]

/-- Once an error record was seen and the accumulated bytes decode, the next
iteration reports the remote error, whatever the source holds. -/
theorem loop_seenError (f : Nat) (s : streamReader T) (c : Nat) (npl : Option ByteSeq)
    (E : ErrorResponse) (hu : s.unmarshalError = some E) :
    ∃ s1, processLinesLoop (f + 1) s c true npl =
      some (⟨none, some (StreamError.wrapped E.Error)⟩, s1) := by
  by_cases h : 10 ∈ s.reader.buf
  · obtain ⟨l, rest, hsplit, hl⟩ := List.eq_append_cons_of_mem h
    exact ⟨s.advance rest, by rw [loop_afterError f s c npl l rest hl hsplit, hu]⟩
  · exact ⟨s.advance [], by rw [loop_fail f s c true npl h, hu]⟩

theorem loop_tooMany (ls : List ByteSeq) (f : Nat) (s : streamReader T) (c : Nat)
    (rest : ByteSeq) (hls : ∀ l ∈ ls, nonDataLine l)
    (hbuf : s.reader.buf = joinLines ls ++ rest)
    (hw : s.errAccumulator.writeErr = none)
    (hlen : c + ls.length = s.emptyMessagesLimit + 1) (hne : ls ≠ [])
    (hL : s.emptyMessagesLimit + 1 < uintSize) (hf : ls.length ≤ f) :
    processLinesLoop f s c false none =
      some (⟨none, some StreamError.ErrTooManyEmptyStreamMessages⟩,
        (s.advance rest).accumulate (trimmedLines ls)) := by
  induction ls generalizing s c f with
  | nil => exact absurd rfl hne
  | cons l ls ih =>
    cases f with
    | zero => simp at hf
    | succ f =>
      have hbuf1 : s.reader.buf = l ++ 10 :: (joinLines ls ++ rest) := by
        simp [hbuf, joinLines]
      simp only [List.length_cons] at hlen hf
      have hmod : (c + 1) % uintSize = c + 1 := Nat.mod_eq_of_lt (by omega)
      rw [loop_noise f s c l _ (hls l (by simp)) hbuf1 hw, hmod]
      by_cases hgt : c + 1 > s.emptyMessagesLimit
      · have h0 : ls = [] := List.length_eq_zero.mp (by omega)
        subst h0
        simp [hgt, joinLines, trimmedLines]
      · rw [if_neg hgt]
        have hne1 : ls ≠ [] := by
          intro h0
          subst h0
          simp at hlen
          omega
        rw [ih f ((s.advance (joinLines ls ++ rest)).accumulate (trimmedLine l)) (c + 1)
          (fun q hq => hls q (by simp [hq])) rfl hw (by
            show c + 1 + ls.length = s.emptyMessagesLimit + 1
            omega) hne1 hL (by omega)]
        rw [accumulate_step]
        rfl

/-! ## The shape of a returned frame -/

theorem head_of_isPrefixOf {fr : ByteSeq} (h : List.isPrefixOf [32] fr = false) :
    fr.head? ≠ some 32 := by
  cases fr with
  | nil => simp
  | cons b fr =>
    intro hb
    simp only [List.head?_cons, Option.some.injEq] at hb
    subst hb
    simp [List.isPrefixOf_cons₂] at h

theorem payload_shape (raw fr : ByteSeq)
    (hd : HasPrefix (TrimSpace raw) headerData = true)
    (h : (if HasPrefix (TrimPrefix (TrimSpace raw) headerData) [32] then
        TrimSpace ((TrimPrefix (TrimSpace raw) headerData).getD [])
      else TrimPrefix (TrimSpace raw) headerData) = some fr) :
    trailingSpace fr = none ∧ fr.head? ≠ some 32 := by
  cases hx : TrimSpace raw with
  | none =>
    rw [hx] at hd
    exact absurd hd (by decide)
  | some x =>
    rw [hx] at hd h
    have hxs := TrimSpace_some hx
    have htp : TrimPrefix (some x) headerData = some (x.drop headerData.length) := by
      unfold TrimPrefix
      rw [if_pos hd]
      rfl
    rw [htp] at h
    by_cases hsp : HasPrefix (some (x.drop headerData.length)) [32] = true
    · rw [if_pos hsp] at h
      have hfs := TrimSpace_some h
      exact ⟨hfs.2.2, head_of_isPrefixOf (head_ne_space hfs.2.1)⟩
    · rw [if_neg hsp] at h
      have hfr : x.drop headerData.length = fr := by simpa using h
      subst hfr
      refine ⟨?_, head_of_isPrefixOf (Bool.eq_false_iff.mpr hsp)⟩
      have ht := hxs.2.2
      rw [trailingSpace_eq_none] at ht ⊢
      intro r hr hsuf
      exact ht r hr (hsuf.trans (List.drop_suffix _ _))

theorem loop_frame_shape (fuel : Nat) (s : streamReader T) (c : Nat) (h : Bool)
    (npl : Option ByteSeq) (r : RawResult) (s1 : streamReader T) (fr : ByteSeq)
    (hloop : processLinesLoop fuel s c h npl = some (r, s1)) (hfr : r.frame = some fr) :
    trailingSpace fr = none ∧ fr.head? ≠ some 32 := by
  induction fuel generalizing s c h npl with
  | zero => simp [processLinesLoop] at hloop
  | succ fuel ih =>
    rw [processLinesLoop] at hloop
    by_cases hrd : s.reader.ReadBytes.err ≠ none ∨ h = true
    · simp only [hrd, if_true] at hloop
      split at hloop <;>
      · simp only [Option.some.injEq, Prod.mk.injEq] at hloop
        rw [← hloop.1] at hfr
        simp at hfr
    · simp only [hrd, if_false] at hloop
      by_cases hd : HasPrefix (TrimSpace s.reader.ReadBytes.line) headerData = true
      · simp only [hd, if_true, Bool.not_true, Bool.false_or, Bool.true_and] at hloop
        generalize hn : (if HasPrefix (TrimPrefix (TrimSpace s.reader.ReadBytes.line)
            headerData) [32] = true then
              TrimSpace ((TrimPrefix (TrimSpace s.reader.ReadBytes.line) headerData).getD [])
            else TrimPrefix (TrimSpace s.reader.ReadBytes.line) headerData) = npl1 at hloop
        by_cases he : (if HasPrefix npl1 errorPrefix = true then true else h) = true
        · rw [if_pos he] at hloop
          generalize hw : (if npl1 = none ∧ TrimSpace s.reader.ReadBytes.line ≠ none then
              s.errAccumulator.Write (TrimSpace s.reader.ReadBytes.line)
            else s.errAccumulator.Write npl1) = w at hloop
          cases hw2 : w.2 with
          | some e =>
            simp only [hw2, Option.some.injEq, Prod.mk.injEq] at hloop
            rw [← hloop.1] at hfr
            simp at hfr
          | none =>
            simp only [hw2] at hloop
            by_cases hgt : (c + 1) % uintSize > s.emptyMessagesLimit
            · rw [if_pos hgt] at hloop
              simp only [Option.some.injEq, Prod.mk.injEq] at hloop
              rw [← hloop.1] at hfr
              simp at hfr
            · rw [if_neg hgt] at hloop
              exact ih _ _ _ _ hloop
        · rw [if_neg he] at hloop
          by_cases hdone : npl1.getD [] = doneMarker
          · rw [if_pos hdone] at hloop
            simp only [Option.some.injEq, Prod.mk.injEq] at hloop
            rw [← hloop.1] at hfr
            simp at hfr
          · rw [if_neg hdone] at hloop
            simp only [Option.some.injEq, Prod.mk.injEq] at hloop
            rw [← hloop.1] at hfr
            simp only at hfr
            rw [hfr] at hn
            exact payload_shape _ fr hd hn
      · have hd2 : HasPrefix (TrimSpace s.reader.ReadBytes.line) headerData = false := by
          simpa using hd
        simp only [hd2, Bool.not_false, Bool.true_or, if_true, Bool.false_and,
          Bool.false_eq_true, if_false] at hloop
        generalize hw : (if npl = none ∧ TrimSpace s.reader.ReadBytes.line ≠ none then
            s.errAccumulator.Write (TrimSpace s.reader.ReadBytes.line)
          else s.errAccumulator.Write npl) = w at hloop
        cases hw2 : w.2 with
        | some e =>
          simp only [hw2, Option.some.injEq, Prod.mk.injEq] at hloop
          rw [← hloop.1] at hfr
          simp at hfr
        | none =>
          simp only [hw2] at hloop
          by_cases hgt : (c + 1) % uintSize > s.emptyMessagesLimit
          · rw [if_pos hgt] at hloop
            simp only [Option.some.injEq, Prod.mk.injEq] at hloop
            rw [← hloop.1] at hfr
            simp at hfr
          · rw [if_neg hgt] at hloop
            exact ih _ _ _ _ hloop

/-! ## Read failures and accumulated bytes -/

theorem unmarshalError_accumulate (s : streamReader T) (rest x : ByteSeq) :
    ((s.advance rest).accumulate x).unmarshalError =
      if (s.errAccumulator.buf ++ x).length = 0 then none
      else if (s.unmarshaler.UnmarshalError (s.errAccumulator.buf ++ x)).2 ≠ none then none
      else (s.unmarshaler.UnmarshalError (s.errAccumulator.buf ++ x)).1 := rfl

theorem fuel_split (s : streamReader T) (ls : List ByteSeq) (rest : ByteSeq)
    (hbuf : s.reader.buf = joinLines ls ++ rest) :
    ∃ f, s.reader.buf.length + 1 = ls.length + (f + 1) := by
  have h := length_joinLines_le ls
  refine ⟨s.reader.buf.length - ls.length, ?_⟩
  rw [hbuf, List.length_append]
  omega

theorem count_within (L k : Nat) (hk : k ≤ L) :
    ∀ j < k, (0 + j + 1) % uintSize ≤ L := by
  intro j hj
  have := Nat.mod_le (0 + j + 1) uintSize
  omega

/-- A pull that reads non-data lines within the tolerance and then meets the end
of the source: the loop arrives at the failing read with the trimmed lines
accumulated. -/
theorem RecvRaw_noise_then_fail (s : streamReader T) (ls : List ByteSeq) (tail : ByteSeq)
    (hfin : s.isFinished = false) (hls : ∀ l ∈ ls, nonDataLine l)
    (hk : ls.length ≤ s.emptyMessagesLimit) (htail : 10 ∉ tail)
    (hbuf : s.reader.buf = joinLines ls ++ tail)
    (hw : ls = [] ∨ s.errAccumulator.writeErr = none) :
    s.RecvRaw =
      match ((s.advance tail).accumulate (trimmedLines ls)).unmarshalError with
      | some respErr => some (⟨none, some (StreamError.wrapped respErr.Error)⟩,
          (s.advance []).accumulate (trimmedLines ls))
      | none => some (⟨none, some s.reader.err⟩,
          (s.advance []).accumulate (trimmedLines ls)) := by
  obtain ⟨f, hf⟩ := fuel_split s ls tail hbuf
  rw [RecvRaw_unfinished s hfin, hf,
    loop_noise_run ls (f + 1) s 0 tail hls hbuf hw (count_within _ _ hk) (by decide),
    loop_fail f _ _ false none (by simpa [streamReader.advance, streamReader.accumulate]
      using htail)]
  rfl

theorem joinLines_replicate_nil (n : Nat) :
    joinLines (List.replicate n ([] : ByteSeq)) = List.replicate n 10 := by
  induction n with
  | zero => rfl
  | succ n ih => simp [List.replicate_succ, joinLines, ih]

theorem trimmedLines_replicate_nil (n : Nat) :
    trimmedLines (List.replicate n ([] : ByteSeq)) = [] := by
  apply trimmedLines_blank
  intro l hl
  rw [List.eq_of_mem_replicate hl]
  decide

/-- With the largest limit a `uint` can hold the counter wraps before it can
exceed the limit: a run of blank lines as long as one likes ends with the read
failure of the source. -/
theorem RecvRaw_blank_run_maxLimit (n : Nat) (s : streamReader T)
    (hfin : s.isFinished = false) (hL : s.emptyMessagesLimit = uintSize - 1)
    (hbuf : s.reader.buf = joinLines (List.replicate n [])) (hacc : s.errAccumulator.buf = [])
    (hw : s.errAccumulator.writeErr = none) :
    s.RecvRaw.map Prod.fst = some ⟨none, some s.reader.err⟩ := by
  have hls : ∀ l ∈ List.replicate n ([] : ByteSeq), nonDataLine l := by
    intro l hl
    rw [List.eq_of_mem_replicate hl]
    decide
  have hbuf1 : s.reader.buf = joinLines (List.replicate n []) ++ [] := by simpa using hbuf
  have hlen : s.reader.buf.length + 1 = (List.replicate n ([] : ByteSeq)).length + (0 + 1) := by
    rw [hbuf, joinLines_replicate_nil]
    simp
  have hc : ∀ j < (List.replicate n ([] : ByteSeq)).length,
      (0 + j + 1) % uintSize ≤ s.emptyMessagesLimit := by
    intro j _
    have := Nat.mod_lt (0 + j + 1) (show 0 < uintSize by decide)
    omega
  rw [RecvRaw_unfinished s hfin, hlen,
    loop_noise_run _ (0 + 1) s 0 [] hls hbuf1 (Or.inr hw) hc (by decide),
    loop_fail 0 _ _ false none (by simp [streamReader.advance, streamReader.accumulate]),
    unmarshalError_accumulate, trimmedLines_replicate_nil, hacc]
  rfl

/-! ## Every pull returns -/

theorem splitLine_length (b l r : ByteSeq) (h : splitLine b = some (l, r)) :
    r.length < b.length := by
  induction b generalizing l with
  | nil => simp [splitLine] at h
  | cons x b ih =>
    unfold splitLine at h
    split at h
    · simp only [Option.some.injEq, Prod.mk.injEq] at h
      rw [← h.2]
      simp
    · cases hs : splitLine b with
      | none => simp [hs] at h
      | some q =>
        obtain ⟨l1, r1⟩ := q
        simp only [hs, Option.some.injEq, Prod.mk.injEq] at h
        obtain ⟨_, h2⟩ := h
        subst h2
        have := ih l1 hs
        simp only [List.length_cons]
        omega

theorem ReadBytes_length (r : Reader) (h : ¬ r.ReadBytes.err ≠ none) :
    r.ReadBytes.reader.buf.length < r.buf.length := by
  unfold Reader.ReadBytes at h ⊢
  cases hs : splitLine r.buf with
  | none => simp [hs] at h
  | some q =>
    obtain ⟨l1, r1⟩ := q
    simpa [hs] using splitLine_length r.buf l1 r1 hs

/-- The scan loop returns when it has more fuel than the source has bytes. -/
theorem loop_total (fuel : Nat) (s : streamReader T) (c : Nat) (h : Bool)
    (npl : Option ByteSeq) (hf : s.reader.buf.length < fuel) :
    ∃ r s1, processLinesLoop fuel s c h npl = some (r, s1) := by
  induction fuel generalizing s c h npl with
  | zero => exact absurd hf (Nat.not_lt_zero _)
  | succ fuel ih =>
    rw [processLinesLoop]
    by_cases hrd : s.reader.ReadBytes.err ≠ none ∨ h = true
    · simp only [hrd, if_true]
      split <;> exact ⟨_, _, rfl⟩
    · simp only [hrd, if_false]
      have hlen := ReadBytes_length s.reader (fun hh => hrd (Or.inl hh))
      have hfuel : s.reader.ReadBytes.reader.buf.length < fuel := by omega
      repeat' split
      all_goals first | exact ⟨_, _, rfl⟩ | exact ih _ _ _ _ hfuel

/-- The method `RecvRaw` returns on every session. -/
theorem RecvRaw_total (s : streamReader T) : ∃ r s1, s.RecvRaw = some (r, s1) := by
  by_cases hfin : s.isFinished = true
  · exact ⟨_, _, RecvRaw_finished s hfin⟩
  · rw [RecvRaw_unfinished s (by simpa using hfin)]
    exact loop_total _ s 0 false none (Nat.lt_succ_self _)

/-! ## One iteration on an arbitrary line -/

theorem nonDataLine_of_isDataLine {l : ByteSeq} (hl : 10 ∉ l) (hd : isDataLine l = false) :
    nonDataLine l := ⟨hl, hd⟩

theorem linePayload_ne_none {l : ByteSeq} (he : HasPrefix (linePayload l) errorPrefix = true) :
    linePayload l ≠ none := by
  intro h
  rw [h] at he
  exact absurd he (by decide)

/-- A data line that is no error record is read: the sentinel ends the stream,
any other payload is the frame. -/
theorem loop_dataLine (f : Nat) (s : streamReader T) (c : Nat) (npl : Option ByteSeq)
    (l rest : ByteSeq) (hl : 10 ∉ l) (hbuf : s.reader.buf = l ++ 10 :: rest)
    (hd : isDataLine l = true) (he : isErrorRecord l = false) :
    processLinesLoop (f + 1) s c false npl =
      if (linePayload l).getD [] = doneMarker then
        some (⟨none, some StreamError.EOF⟩, { s.advance rest with isFinished := true })
      else some (⟨linePayload l, none⟩, s.advance rest) := by
  have hd1 : HasPrefix (TrimSpace (l ++ [10])) headerData = true := hd
  have he1 : HasPrefix (linePayload l) errorPrefix = false := by
    simpa [isErrorRecord, hd] using he
  unfold linePayload at he1
  rw [processLinesLoop]
  simp only [ReadBytes_line _ l rest hl hbuf, hd1]
  simp [streamReader.advance, he1, linePayload]

/-- An error record is read and the accumulator takes its payload. -/
theorem loop_errorLine (f : Nat) (s : streamReader T) (c : Nat) (npl : Option ByteSeq)
    (l rest : ByteSeq) (hl : 10 ∉ l) (hbuf : s.reader.buf = l ++ 10 :: rest)
    (he : isErrorRecord l = true) (hw : s.errAccumulator.writeErr = none) :
    processLinesLoop (f + 1) s c false npl =
      if (c + 1) % uintSize > s.emptyMessagesLimit then
        some (⟨none, some StreamError.ErrTooManyEmptyStreamMessages⟩,
          (s.advance rest).accumulate ((linePayload l).getD []))
      else processLinesLoop f ((s.advance rest).accumulate ((linePayload l).getD []))
        ((c + 1) % uintSize) true (linePayload l) := by
  have hd1 : HasPrefix (TrimSpace (l ++ [10])) headerData = true := by
    simp only [isErrorRecord, Bool.and_eq_true] at he
    exact he.1
  have he1 : HasPrefix (linePayload l) errorPrefix = true := by
    simp only [isErrorRecord, Bool.and_eq_true] at he
    exact he.2
  have hne := linePayload_ne_none he1
  unfold linePayload at he1 hne
  rw [processLinesLoop]
  simp only [ReadBytes_line _ l rest hl hbuf, hd1]
  simp [streamReader.advance, streamReader.accumulate, ErrorAccumulator.Write, hw, he1, hne,
    linePayload]

/-- An error record is read and the accumulator refuses the write. -/
theorem loop_errorLine_writeFail (f : Nat) (s : streamReader T) (c : Nat)
    (npl : Option ByteSeq) (l rest : ByteSeq) (e : StreamError) (hl : 10 ∉ l)
    (hbuf : s.reader.buf = l ++ 10 :: rest) (he : isErrorRecord l = true)
    (hw : s.errAccumulator.writeErr = some e) :
    processLinesLoop (f + 1) s c false npl = some (⟨none, some e⟩, s.advance rest) := by
  have hd1 : HasPrefix (TrimSpace (l ++ [10])) headerData = true := by
    simp only [isErrorRecord, Bool.and_eq_true] at he
    exact he.1
  have he1 : HasPrefix (linePayload l) errorPrefix = true := by
    simp only [isErrorRecord, Bool.and_eq_true] at he
    exact he.2
  have hne := linePayload_ne_none he1
  unfold linePayload at he1 hne
  rw [processLinesLoop]
  simp only [ReadBytes_line _ l rest hl hbuf, hd1]
  simp [streamReader.advance, ErrorAccumulator.Write, hw, he1, hne]

/-! ## What a pull leaves alone -/

theorem ReadBytes_err (r : Reader) : r.ReadBytes.reader.err = r.err := by
  unfold Reader.ReadBytes
  split <;> rfl

theorem Write_writeErr (a : ErrorAccumulator) (p : Option ByteSeq) :
    (a.Write p).1.writeErr = a.writeErr := by
  unfold ErrorAccumulator.Write
  split <;> simp_all

/-- The scan loop changes neither the limit, nor the unmarshaler, nor the failure
of the source, nor the failure mode of the accumulator. -/
theorem loop_preserves (fuel : Nat) (s : streamReader T) (c : Nat) (h : Bool)
    (npl : Option ByteSeq) (r : RawResult) (s1 : streamReader T)
    (hloop : processLinesLoop fuel s c h npl = some (r, s1)) :
    s1.unmarshaler = s.unmarshaler ∧ s1.emptyMessagesLimit = s.emptyMessagesLimit ∧
    s1.reader.err = s.reader.err ∧
    s1.errAccumulator.writeErr = s.errAccumulator.writeErr := by
  induction fuel generalizing s c h npl with
  | zero => simp [processLinesLoop] at hloop
  | succ fuel ih =>
    rw [processLinesLoop] at hloop
    simp only at hloop
    repeat' split at hloop
    all_goals first
      | (have h2 := ih _ _ _ _ hloop
         simpa [ReadBytes_err, Write_writeErr] using h2)
      | (simp only [Option.some.injEq, Prod.mk.injEq] at hloop
         obtain ⟨_, h2⟩ := hloop
         subst h2
         simp [ReadBytes_err, Write_writeErr])

theorem RecvRaw_preserves (s s1 : streamReader T) (r : RawResult)
    (hpull : s.RecvRaw = some (r, s1)) :
    s1.unmarshaler = s.unmarshaler ∧ s1.emptyMessagesLimit = s.emptyMessagesLimit ∧
    s1.reader.err = s.reader.err ∧
    s1.errAccumulator.writeErr = s.errAccumulator.writeErr := by
  by_cases hfin : s.isFinished = true
  · rw [RecvRaw_finished s hfin] at hpull
    simp only [Option.some.injEq, Prod.mk.injEq] at hpull
    obtain ⟨_, h2⟩ := hpull
    subst h2
    simp
  · rw [RecvRaw_unfinished s (by simpa using hfin)] at hpull
    exact loop_preserves _ s 0 false none r s1 hpull

/-! ## A source without a final newline -/

theorem RecvRaw_exhausted (s : streamReader T) (hfin : s.isFinished = false)
    (hacc : s.errAccumulator.buf = []) (hbuf : 10 ∉ s.reader.buf) :
    s.RecvRaw = some (⟨none, some s.reader.err⟩, s.advance []) := by
  have hu : s.unmarshalError = none := by
    simp [streamReader.unmarshalError, ErrorAccumulator.Bytes, hacc]
  rw [RecvRaw_unfinished s hfin, loop_fail _ s 0 false none hbuf, hu]

theorem recvRawN_exhausted (n : Nat) (s : streamReader T) (hfin : s.isFinished = false)
    (hacc : s.errAccumulator.buf = []) :
    recvRawN n (s.advance []) =
      some (List.replicate n ⟨none, some s.reader.err⟩, s.advance []) := by
  induction n with
  | zero => rfl
  | succ n ih =>
    have h1 := RecvRaw_exhausted (s.advance []) hfin hacc (by simp [streamReader.advance])
    exact recvRawN_succ n _ _ _ _ _ h1 ih

/-! ## Runs of white-space runes -/

theorem spaceRunes_suffix_unique :
    ∀ a ∈ spaceRunes, ∀ b ∈ spaceRunes, a <:+ b → a = b := by
  decide

theorem spaceRunes_newline_free : ∀ r ∈ spaceRunes, r ≠ [10] → 10 ∉ r := by
  decide

theorem trailingSpace_append_rune (x r : ByteSeq) (hr : r ∈ spaceRunes) :
    trailingSpace (x ++ r) = some r := by
  cases h : trailingSpace (x ++ r) with
  | none =>
    rw [trailingSpace_eq_none] at h
    exact absurd (List.suffix_append x r) (h r hr)
  | some r2 =>
    obtain ⟨h1, h2⟩ := trailingSpace_some h
    rcases List.suffix_or_suffix_of_suffix h2 (List.suffix_append x r) with h3 | h3
    · rw [spaceRunes_suffix_unique r2 h1 r hr h3]
    · rw [spaceRunes_suffix_unique r hr r2 h1 h3]

theorem concatRunes_append (rs : List ByteSeq) (r : ByteSeq) :
    concatRunes (rs ++ [r]) = concatRunes rs ++ r := by
  induction rs with
  | nil => simp [concatRunes]
  | cons q rs ih => simp [concatRunes, ih]

theorem length_concatRunes_le (rs : List ByteSeq) (hrs : ∀ r ∈ rs, r ∈ spaceRunes) :
    rs.length ≤ (concatRunes rs).length := by
  induction rs with
  | nil => simp
  | cons q rs ih =>
    have h1 : 0 < q.length := List.length_pos.mpr (spaceRunes_shape q (hrs q (by simp))).1
    have h2 := ih (fun r hr => hrs r (by simp [hr]))
    simp only [concatRunes, List.length_append, List.length_cons]
    omega

theorem concatRunes_no_newline (rs : List ByteSeq)
    (hrs : ∀ r ∈ rs, r ∈ spaceRunes ∧ r ≠ [10]) : 10 ∉ concatRunes rs := by
  induction rs with
  | nil => simp [concatRunes]
  | cons q rs ih =>
    have h1 := spaceRunes_newline_free q (hrs q (by simp)).1 (hrs q (by simp)).2
    have h2 := ih (fun r hr => hrs r (by simp [hr]))
    simp [concatRunes, h1, h2]

theorem trimRightSpace_runes (a : ByteSeq) (rs : List ByteSeq) (n : Nat)
    (hrs : ∀ r ∈ rs, r ∈ spaceRunes) (hn : rs.length ≤ n) (ha : trailingSpace a = none) :
    trimRightSpace n (a ++ concatRunes rs) = a := by
  induction rs using List.reverseRecOn generalizing n with
  | nil => simpa [concatRunes] using trimRightSpace_of_none n ha
  | append_singleton rs r ih =>
    cases n with
    | zero => simp at hn
    | succ n =>
      have hr : r ∈ spaceRunes := hrs r (by simp)
      rw [concatRunes_append, ← List.append_assoc]
      simp only [trimRightSpace, trailingSpace_append_rune _ r hr, List.length_append,
        Nat.add_sub_cancel]
      rw [← List.length_append, List.take_left]
      exact ih n (fun q hq => hrs q (by simp [hq])) (by simpa using hn)

/-- The marker followed by white space only: the trimmed line is the marker. -/
theorem TrimSpace_marker_only (rs : List ByteSeq) (hrs : ∀ r ∈ rs, r ∈ spaceRunes) :
    TrimSpace (headerData ++ concatRunes rs ++ [10]) = some headerData := by
  have hlead : leadingSpace (headerData ++ concatRunes rs ++ [10]) = none := by
    simpa [List.append_assoc] using leadingSpace_headerData (concatRunes rs ++ [10])
  have hshape : headerData ++ concatRunes rs ++ [10] =
      headerData ++ concatRunes (rs ++ [[10]]) := by
    rw [concatRunes_append, List.append_assoc]
  have hlen := length_concatRunes_le rs hrs
  unfold TrimSpace
  simp only [trimLeftSpace_of_none _ hlead]
  rw [hshape, trimRightSpace_runes headerData (rs ++ [[10]]) _
    (by
      intro r hr
      rcases List.mem_append.mp hr with h | h
      · exact hrs r h
      · simp only [List.mem_singleton] at h
        rw [h]
        decide)
    (by
      rw [concatRunes_append]
      simp only [List.length_append, List.length_singleton]
      omega)
    (by decide)]
  simp [headerData]

/-- A data line without payload is returned as an empty frame. -/
theorem RecvRaw_empty_payload (s : streamReader T) (rs : List ByteSeq) (rest : ByteSeq)
    (hfin : s.isFinished = false) (hrs : ∀ r ∈ rs, r ∈ spaceRunes ∧ r ≠ [10])
    (hbuf : s.reader.buf = headerData ++ concatRunes rs ++ 10 :: rest) :
    s.RecvRaw = some (⟨some [], none⟩, s.advance rest) := by
  have hts := TrimSpace_marker_only rs (fun r hr => (hrs r hr).1)
  have hl : 10 ∉ headerData ++ concatRunes rs := by
    have := concatRunes_no_newline rs hrs
    simp [headerData, this]
  have hd : isDataLine (headerData ++ concatRunes rs) = true := by
    unfold isDataLine
    rw [hts]
    decide
  have hp : linePayload (headerData ++ concatRunes rs) = some [] := by
    unfold linePayload
    rw [hts]
    decide
  have he : isErrorRecord (headerData ++ concatRunes rs) = false := by
    unfold isErrorRecord
    rw [hd, hp]
    decide
  rw [RecvRaw_unfinished s hfin,
    loop_dataLine _ s 0 none (headerData ++ concatRunes rs) rest hl hbuf hd he, hp]
  simp [doneMarker]

/-! ## Blocks of non-data lines closed by a data line -/

theorem RecvRaw_noise_then_frame (s : streamReader T) (ls : List ByteSeq) (p rest : ByteSeq)
    (hfin : s.isFinished = false) (hls : ∀ l ∈ ls, nonDataLine l)
    (hk : ls.length ≤ s.emptyMessagesLimit) (hp : framePayload p)
    (hbuf : s.reader.buf = joinLines ls ++ (dataLine [32] p [] ++ rest))
    (hw : ls = [] ∨ s.errAccumulator.writeErr = none) :
    s.RecvRaw = some (⟨some p, none⟩, (s.advance rest).accumulate (trimmedLines ls)) := by
  obtain ⟨f, hf⟩ := fuel_split s ls _ hbuf
  rw [RecvRaw_unfinished s hfin, hf,
    loop_noise_run ls (f + 1) s 0 _ hls hbuf hw (count_within _ _ hk) (by decide),
    loop_data f _ _ none [32] p [] rest inline_single (Or.inr rfl) inline_nil hp.1 hp.2.2 rfl,
    if_neg hp.2.1]
  rfl

theorem recvRawN_blocks (bs : List (List ByteSeq × ByteSeq)) (s : streamReader T)
    (rest : ByteSeq) (hfin : s.isFinished = false)
    (hw : s.errAccumulator.writeErr = none)
    (hbs : ∀ b ∈ bs, b.1.length ≤ s.emptyMessagesLimit ∧ (∀ l ∈ b.1, nonDataLine l) ∧
      framePayload b.2)
    (hbuf : s.reader.buf = blockStream bs ++ rest) :
    ∃ s1, recvRawN bs.length s =
      some (bs.map (fun b => (⟨some b.2, none⟩ : RawResult)), s1) := by
  induction bs generalizing s with
  | nil => exact ⟨s, rfl⟩
  | cons b bs ih =>
    obtain ⟨hb1, hb2, hb3⟩ := hbs b (by simp)
    have hbuf1 : s.reader.buf =
        joinLines b.1 ++ (dataLine [32] b.2 [] ++ (blockStream bs ++ rest)) := by
      simp [hbuf, blockStream, List.append_assoc]
    have h1 := RecvRaw_noise_then_frame s b.1 b.2 (blockStream bs ++ rest) hfin hb2 hb1 hb3
      hbuf1 (Or.inr hw)
    obtain ⟨s1, h2⟩ := ih ((s.advance (blockStream bs ++ rest)).accumulate (trimmedLines b.1))
      hfin hw (fun q hq => hbs q (by simp [hq])) rfl
    exact ⟨s1, recvRawN_succ _ s _ _ _ _ h1 h2⟩

/-! ## The lines a pull reads and the bytes it accumulates -/

/-- The iteration that follows an error record reads one more line, or meets the
end of the source, and leaves the accumulator and the flag alone. -/
theorem loop_seen_trace (f : Nat) (s : streamReader T) (c : Nat) (npl : Option ByteSeq)
    (r : RawResult) (s1 : streamReader T)
    (hloop : processLinesLoop f s c true npl = some (r, s1)) :
    s1.errAccumulator = s.errAccumulator ∧ s1.isFinished = s.isFinished ∧
    ((∃ l, 10 ∉ l ∧ s.reader.buf = l ++ 10 :: s1.reader.buf) ∨
      (10 ∉ s.reader.buf ∧ s1.reader.buf = [])) := by
  cases f with
  | zero => simp [processLinesLoop] at hloop
  | succ f =>
    by_cases h : 10 ∈ s.reader.buf
    · obtain ⟨l, rest, hsplit, hl⟩ := List.eq_append_cons_of_mem h
      rw [loop_afterError f s c npl l rest hl hsplit] at hloop
      have hs1 : s1 = s.advance rest := by
        split at hloop <;>
        · simp only [Option.some.injEq, Prod.mk.injEq] at hloop
          exact hloop.2.symm
      subst hs1
      exact ⟨rfl, rfl, Or.inl ⟨l, hl, hsplit⟩⟩
    · rw [loop_fail f s c true npl h] at hloop
      have hs1 : s1 = s.advance [] := by
        split at hloop <;>
        · simp only [Option.some.injEq, Prod.mk.injEq] at hloop
          exact hloop.2.symm
      subst hs1
      exact ⟨rfl, rfl, Or.inr ⟨h, rfl⟩⟩

theorem accumulatedBytes_nonData (l : ByteSeq) (ls : List ByteSeq)
    (hd : isDataLine l = false) :
    accumulatedBytes (l :: ls) = trimmedLine l ++ accumulatedBytes ls := by
  simp [accumulatedBytes, hd]

theorem accumulatedBytes_error (l : ByteSeq) (ls : List ByteSeq)
    (he : isErrorRecord l = true) :
    accumulatedBytes (l :: ls) = (linePayload l).getD [] := by
  have hd : isDataLine l = true := by
    simp only [isErrorRecord, Bool.and_eq_true] at he
    exact he.1
  simp [accumulatedBytes, hd, he]

theorem accumulatedBytes_frame (l : ByteSeq) (ls : List ByteSeq)
    (hd : isDataLine l = true) (he : isErrorRecord l = false) :
    accumulatedBytes (l :: ls) = [] := by
  simp [accumulatedBytes, hd, he]

/-- The lines a run of the scan loop reads, and the bytes it adds to the
accumulator when writes succeed. -/
theorem loop_acc_trace (f : Nat) (s : streamReader T) (c : Nat) (r : RawResult)
    (s1 : streamReader T) (hw : s.errAccumulator.writeErr = none)
    (hloop : processLinesLoop f s c false none = some (r, s1)) :
    ∃ ls tail, (∀ l ∈ ls, 10 ∉ l) ∧ 10 ∉ tail ∧ (tail = [] ∨ s1.reader.buf = []) ∧
      s.reader.buf = joinLines ls ++ tail ++ s1.reader.buf ∧
      s1.errAccumulator.buf = s.errAccumulator.buf ++ accumulatedBytes ls := by
  induction f generalizing s c with
  | zero => simp [processLinesLoop] at hloop
  | succ f ih =>
    by_cases h : 10 ∈ s.reader.buf
    · obtain ⟨l, rest, hsplit, hl⟩ := List.eq_append_cons_of_mem h
      cases hd : isDataLine l with
      | false =>
        rw [loop_noise f s c l rest (nonDataLine_of_isDataLine hl hd) hsplit hw] at hloop
        by_cases hgt : (c + 1) % uintSize > s.emptyMessagesLimit
        · rw [if_pos hgt] at hloop
          simp only [Option.some.injEq, Prod.mk.injEq] at hloop
          obtain ⟨_, hs1⟩ := hloop
          subst hs1
          refine ⟨[l], [], ?_, by simp, Or.inl rfl, ?_, ?_⟩
          · simpa using hl
          · simp [joinLines, hsplit, streamReader.advance, streamReader.accumulate]
          · rw [accumulatedBytes_nonData l [] hd]
            simp [accumulatedBytes, streamReader.advance, streamReader.accumulate]
        · rw [if_neg hgt] at hloop
          obtain ⟨ls, tail, h1, h2, h3, h4, h5⟩ :=
            ih ((s.advance rest).accumulate (trimmedLine l)) _ hw hloop
          refine ⟨l :: ls, tail, ?_, h2, h3, ?_, ?_⟩
          · intro x hx
            rcases List.mem_cons.mp hx with hx | hx
            · rw [hx]
              exact hl
            · exact h1 x hx
          · have h4b : rest = joinLines ls ++ tail ++ s1.reader.buf := h4
            rw [hsplit, h4b]
            simp [joinLines, List.append_assoc]
          · rw [h5, accumulatedBytes_nonData l ls hd]
            simp [streamReader.advance, streamReader.accumulate, List.append_assoc]
      | true =>
        cases he : isErrorRecord l with
        | false =>
          rw [loop_dataLine f s c none l rest hl hsplit hd he] at hloop
          have hs1 : s1.reader.buf = rest ∧ s1.errAccumulator = s.errAccumulator := by
            split at hloop <;>
            · simp only [Option.some.injEq, Prod.mk.injEq] at hloop
              obtain ⟨_, hs1⟩ := hloop
              subst hs1
              exact ⟨rfl, rfl⟩
          refine ⟨[l], [], ?_, by simp, Or.inl rfl, ?_, ?_⟩
          · simpa using hl
          · simp [joinLines, hsplit, hs1.1]
          · rw [accumulatedBytes_frame l [] hd he, hs1.2]
            simp
        | true =>
          rw [loop_errorLine f s c none l rest hl hsplit he hw] at hloop
          by_cases hgt : (c + 1) % uintSize > s.emptyMessagesLimit
          · rw [if_pos hgt] at hloop
            simp only [Option.some.injEq, Prod.mk.injEq] at hloop
            obtain ⟨_, hs1⟩ := hloop
            subst hs1
            refine ⟨[l], [], ?_, by simp, Or.inl rfl, ?_, ?_⟩
            · simpa using hl
            · simp [joinLines, hsplit, streamReader.advance, streamReader.accumulate]
            · rw [accumulatedBytes_error l [] he]
              simp [streamReader.advance, streamReader.accumulate]
          · rw [if_neg hgt] at hloop
            obtain ⟨hacc, _, hrd⟩ := loop_seen_trace f _ _ _ r s1 hloop
            have hbuf1 : s1.errAccumulator.buf =
                s.errAccumulator.buf ++ (linePayload l).getD [] := by
              rw [hacc]
              rfl
            rcases hrd with ⟨l2, hl2, hsplit2⟩ | ⟨hnl, hemp⟩
            · have hsplit2b : rest = l2 ++ 10 :: s1.reader.buf := hsplit2
              refine ⟨[l, l2], [], ?_, by simp, Or.inl rfl, ?_, ?_⟩
              · intro x hx
                simp only [List.mem_cons, List.mem_singleton, List.not_mem_nil,
                  or_false] at hx
                rcases hx with hx | hx
                · rw [hx]
                  exact hl
                · rw [hx]
                  exact hl2
              · rw [hsplit, hsplit2b]
                simp [joinLines, List.append_assoc]
              · rw [hbuf1, accumulatedBytes_error l [l2] he]
            · have hnlb : 10 ∉ rest := hnl
              refine ⟨[l], rest, ?_, hnlb, Or.inr hemp, ?_, ?_⟩
              · simpa using hl
              · rw [hsplit, hemp]
                simp [joinLines, List.append_assoc]
              · rw [hbuf1, accumulatedBytes_error l [] he]
    · rw [loop_fail f s c false none h] at hloop
      have hs1 : s1 = s.advance [] := by
        split at hloop <;>
        · simp only [Option.some.injEq, Prod.mk.injEq] at hloop
          exact hloop.2.symm
      subst hs1
      exact ⟨[], s.reader.buf, by simp, h, Or.inr rfl,
        by simp [joinLines, streamReader.advance],
        by simp [accumulatedBytes, streamReader.advance]⟩

/-! ## The terminal flag -/

theorem joinLines_append_ne (ls : List ByteSeq) (l rest : ByteSeq) :
    joinLines ls ++ (l ++ 10 :: rest) ≠ rest := by
  intro h
  have := congrArg List.length h
  simp only [List.length_append, List.length_cons] at this
  omega

theorem not_errorRecord_of_done {l : ByteSeq} (hp : (linePayload l).getD [] = doneMarker) :
    isErrorRecord l = false := by
  have : HasPrefix (linePayload l) errorPrefix = false := by
    unfold HasPrefix
    rw [hp]
    decide
  simp [isErrorRecord, this]

/-- A run of the scan loop that sets the terminal flag has read non-data lines
and then a data line whose payload is the sentinel, and returns `io.EOF`. -/
theorem loop_flag_only_done (f : Nat) (s : streamReader T) (c : Nat) (h : Bool)
    (npl : Option ByteSeq) (r : RawResult) (s1 : streamReader T)
    (hfin : s.isFinished = false) (hst : h = true ∨ npl = none)
    (hloop : processLinesLoop f s c h npl = some (r, s1)) (hset : s1.isFinished = true) :
    h = false ∧ r = ⟨none, some StreamError.EOF⟩ ∧
    ∃ ls l, s.reader.buf = joinLines ls ++ (l ++ 10 :: s1.reader.buf) ∧
      (∀ x ∈ ls, nonDataLine x) ∧ 10 ∉ l ∧ isDataLine l = true ∧
      (linePayload l).getD [] = doneMarker := by
  induction f generalizing s c h npl with
  | zero => simp [processLinesLoop] at hloop
  | succ f ih =>
    cases h with
    | true =>
      have h2 := (loop_seen_trace (f + 1) s c npl r s1 hloop).2.1
      rw [h2, hfin] at hset
      exact absurd hset (by simp)
    | false =>
      have hnpl : npl = none := by
        rcases hst with h1 | h1
        · exact absurd h1 (by simp)
        · exact h1
      subst hnpl
      by_cases hnl : 10 ∈ s.reader.buf
      · obtain ⟨l, rest, hsplit, hl⟩ := List.eq_append_cons_of_mem hnl
        cases hd : isDataLine l with
        | false =>
          cases hw : s.errAccumulator.writeErr with
          | some e =>
            rw [loop_noise_writeFail f s c l rest e (nonDataLine_of_isDataLine hl hd)
              hsplit hw] at hloop
            simp only [Option.some.injEq, Prod.mk.injEq] at hloop
            rw [← hloop.2] at hset
            exact absurd (hfin ▸ hset : false = true) (by simp)
          | none =>
            rw [loop_noise f s c l rest (nonDataLine_of_isDataLine hl hd) hsplit hw] at hloop
            by_cases hgt : (c + 1) % uintSize > s.emptyMessagesLimit
            · rw [if_pos hgt] at hloop
              simp only [Option.some.injEq, Prod.mk.injEq] at hloop
              rw [← hloop.2] at hset
              exact absurd (hfin ▸ hset : false = true) (by simp)
            · rw [if_neg hgt] at hloop
              obtain ⟨_, hr, ls, l2, h1, h2, h3, h4, h5⟩ :=
                ih ((s.advance rest).accumulate (trimmedLine l)) _ false none hfin
                  (Or.inr rfl) hloop
              have h1b : rest = joinLines ls ++ (l2 ++ 10 :: s1.reader.buf) := h1
              refine ⟨rfl, hr, l :: ls, l2, ?_, ?_, h3, h4, h5⟩
              · rw [hsplit, h1b]
                simp [joinLines]
              · intro x hx
                rcases List.mem_cons.mp hx with hx | hx
                · rw [hx]
                  exact nonDataLine_of_isDataLine hl hd
                · exact h2 x hx
        | true =>
          cases he : isErrorRecord l with
          | false =>
            rw [loop_dataLine f s c none l rest hl hsplit hd he] at hloop
            by_cases hdone : (linePayload l).getD [] = doneMarker
            · rw [if_pos hdone] at hloop
              simp only [Option.some.injEq, Prod.mk.injEq] at hloop
              obtain ⟨hr, hs1⟩ := hloop
              refine ⟨rfl, hr.symm, [], l, ?_, by simp, hl, hd, hdone⟩
              rw [hsplit, ← hs1]
              simp [joinLines, streamReader.advance]
            · rw [if_neg hdone] at hloop
              simp only [Option.some.injEq, Prod.mk.injEq] at hloop
              rw [← hloop.2] at hset
              exact absurd (hfin ▸ hset : false = true) (by simp)
          | true =>
            cases hw : s.errAccumulator.writeErr with
            | some e =>
              rw [loop_errorLine_writeFail f s c none l rest e hl hsplit he hw] at hloop
              simp only [Option.some.injEq, Prod.mk.injEq] at hloop
              rw [← hloop.2] at hset
              exact absurd (hfin ▸ hset : false = true) (by simp)
            | none =>
              rw [loop_errorLine f s c none l rest hl hsplit he hw] at hloop
              by_cases hgt : (c + 1) % uintSize > s.emptyMessagesLimit
              · rw [if_pos hgt] at hloop
                simp only [Option.some.injEq, Prod.mk.injEq] at hloop
                rw [← hloop.2] at hset
                exact absurd (hfin ▸ hset : false = true) (by simp)
              · rw [if_neg hgt] at hloop
                have h2 := (ih ((s.advance rest).accumulate ((linePayload l).getD [])) _
                  true (linePayload l) hfin (Or.inl rfl) hloop).1
                exact absurd h2 (by simp)
      · rw [loop_fail f s c false none hnl] at hloop
        have hs1 : s1 = s.advance [] := by
          split at hloop <;>
          · simp only [Option.some.injEq, Prod.mk.injEq] at hloop
            exact hloop.2.symm
        rw [hs1] at hset
        exact absurd (hfin ▸ hset : false = true) (by simp)

/-- A run of the scan loop that reads lines none of which is an error record and
stops right after a data line whose payload is the sentinel has set the flag. -/
theorem loop_done_reached (ls : List ByteSeq) (l rest : ByteSeq) (f : Nat)
    (s : streamReader T) (c : Nat) (r : RawResult) (s1 : streamReader T)
    (hls : ∀ x ∈ ls, 10 ∉ x ∧ isErrorRecord x = false) (hl : 10 ∉ l)
    (hd : isDataLine l = true) (hp : (linePayload l).getD [] = doneMarker)
    (hbuf : s.reader.buf = joinLines ls ++ (l ++ 10 :: rest))
    (hloop : processLinesLoop f s c false none = some (r, s1))
    (hrest : s1.reader.buf = rest) :
    s1.isFinished = true := by
  induction ls generalizing s c f with
  | nil =>
    cases f with
    | zero => simp [processLinesLoop] at hloop
    | succ f =>
      have hb : s.reader.buf = l ++ 10 :: rest := by simpa [joinLines] using hbuf
      rw [loop_dataLine f s c none l rest hl hb hd (not_errorRecord_of_done hp),
        if_pos hp] at hloop
      simp only [Option.some.injEq, Prod.mk.injEq] at hloop
      rw [← hloop.2]
  | cons x ls ih =>
    cases f with
    | zero => simp [processLinesLoop] at hloop
    | succ f =>
      obtain ⟨hx, hxe⟩ := hls x (by simp)
      have hb : s.reader.buf = x ++ 10 :: (joinLines ls ++ (l ++ 10 :: rest)) := by
        simp [hbuf, joinLines]
      have hne := joinLines_append_ne ls l rest
      cases hdx : isDataLine x with
      | false =>
        cases hw : s.errAccumulator.writeErr with
        | some e =>
          rw [loop_noise_writeFail f s c x _ e (nonDataLine_of_isDataLine hx hdx) hb
            hw] at hloop
          simp only [Option.some.injEq, Prod.mk.injEq] at hloop
          rw [← hloop.2] at hrest
          exact absurd hrest hne
        | none =>
          rw [loop_noise f s c x _ (nonDataLine_of_isDataLine hx hdx) hb hw] at hloop
          by_cases hgt : (c + 1) % uintSize > s.emptyMessagesLimit
          · rw [if_pos hgt] at hloop
            simp only [Option.some.injEq, Prod.mk.injEq] at hloop
            rw [← hloop.2] at hrest
            exact absurd hrest hne
          · rw [if_neg hgt] at hloop
            exact ih f _ _ (fun q hq => hls q (by simp [hq])) rfl hloop
      | true =>
        rw [loop_dataLine f s c none x _ hx hb hdx hxe] at hloop
        have hs1 : s1.reader.buf = joinLines ls ++ (l ++ 10 :: rest) := by
          split at hloop <;>
          · simp only [Option.some.injEq, Prod.mk.injEq] at hloop
            rw [← hloop.2]
            rfl
        rw [hs1] at hrest
        exact absurd hrest hne

/-- The iteration that follows an error record, when it reads a line, reports the
remote error or nothing: never `ErrTooManyEmptyStreamMessages`. -/
theorem loop_seen_result (f : Nat) (s : streamReader T) (c : Nat) (npl : Option ByteSeq)
    (r : RawResult) (s1 : streamReader T) (hnl : 10 ∈ s.reader.buf)
    (hloop : processLinesLoop f s c true npl = some (r, s1)) :
    r.err ≠ some StreamError.ErrTooManyEmptyStreamMessages := by
  cases f with
  | zero => simp [processLinesLoop] at hloop
  | succ f =>
    obtain ⟨l, rest, hsplit, hl⟩ := List.eq_append_cons_of_mem hnl
    rw [loop_afterError f s c npl l rest hl hsplit] at hloop
    split at hloop <;>
    · simp only [Option.some.injEq, Prod.mk.injEq] at hloop
      rw [← hloop.1]
      simp

/-! ## Where a returned frame comes from -/

/-- What left trimming removes is a run of white-space runes. -/
theorem trimLeftSpace_decomp (n : Nat) (y : ByteSeq) :
    ∃ rs, (∀ r ∈ rs, r ∈ spaceRunes) ∧ y = concatRunes rs ++ trimLeftSpace n y := by
  induction n generalizing y with
  | zero => exact ⟨[], by simp, by simp [concatRunes, trimLeftSpace]⟩
  | succ n ih =>
    cases hls : leadingSpace y with
    | none => exact ⟨[], by simp, by simp [concatRunes, trimLeftSpace, hls]⟩
    | some r =>
      obtain ⟨hr, hpre⟩ := leadingSpace_some hls
      obtain ⟨rs, h1, h2⟩ := ih (y.drop r.length)
      refine ⟨r :: rs, ?_, ?_⟩
      · intro q hq
        rcases List.mem_cons.mp hq with hq | hq
        · rw [hq]
          exact hr
        · exact h1 q hq
      · have hy : y = r ++ y.drop r.length := by
          obtain ⟨t, ht⟩ := hpre
          rw [← ht]
          simp
        simp only [trimLeftSpace, hls, concatRunes, List.append_assoc]
        rw [← h2]
        exact hy

/-- The payload of a data line inside its trimmed line: after the marker comes a
run of white-space runes, empty unless a space follows the marker, and then the
payload. -/
theorem linePayload_decomp (l fr : ByteSeq) (hd : isDataLine l = true)
    (hp : linePayload l = some fr) :
    ∃ rs, (∀ r ∈ rs, r ∈ spaceRunes) ∧ (rs = [] ∨ rs.head? = some [32]) ∧
      trimmedLine l = headerData ++ concatRunes rs ++ fr := by
  unfold isDataLine at hd
  unfold linePayload at hp
  unfold trimmedLine
  cases hx : TrimSpace (l ++ [10]) with
  | none =>
    rw [hx] at hd
    exact absurd hd (by decide)
  | some x =>
    rw [hx] at hd hp
    have hxs := TrimSpace_some hx
    have hpre : headerData <+: x := List.isPrefixOf_iff_prefix.mp hd
    have hxy : x = headerData ++ x.drop headerData.length := by
      obtain ⟨t, ht⟩ := hpre
      rw [← ht]
      simp
    have htp : TrimPrefix (some x) headerData = some (x.drop headerData.length) := by
      unfold TrimPrefix
      rw [if_pos hd]
      rfl
    rw [htp] at hp
    have htrail : ∀ z : ByteSeq, z <:+ x.drop headerData.length → trailingSpace z = none := by
      intro z hz
      have ht := hxs.2.2
      rw [trailingSpace_eq_none] at ht ⊢
      intro r hr hsuf
      exact ht r hr ((hsuf.trans hz).trans (List.drop_suffix _ _))
    by_cases hsp : HasPrefix (some (x.drop headerData.length)) [32] = true
    · rw [if_pos hsp] at hp
      simp only [Option.getD_some] at hp
      cases hy : x.drop headerData.length with
      | nil =>
        rw [hy] at hsp
        exact absurd hsp (by decide)
      | cons b y =>
        rw [hy] at hsp hp htrail
        have hb : b = 32 := by
          simp only [HasPrefix, Option.getD_some, List.isPrefixOf_cons₂, List.isPrefixOf,
            Bool.and_true, beq_iff_eq] at hsp
          exact hsp.symm
        subst hb
        have hstep : trimLeftSpace (32 :: y).length (32 :: y) = trimLeftSpace y.length y := by
          simp only [List.length_cons, trimLeftSpace,
            leadingSpace_inline 32 y (by decide), List.length_singleton,
            List.drop_succ_cons, List.drop_zero, List.length_nil]
        obtain ⟨rs, h1, h2⟩ := trimLeftSpace_decomp y.length y
        have hz : trimLeftSpace y.length y <:+ 32 :: y :=
          (trimLeftSpace_suffix _ _).trans (List.suffix_cons _ _)
        have hfr : trimLeftSpace y.length y = fr := by
          unfold TrimSpace at hp
          simp only [hstep, trimRightSpace_of_none _ (htrail _ hz)] at hp
          split at hp
          · exact absurd hp (by simp)
          · simpa using hp
        refine ⟨[32] :: rs, ?_, Or.inr rfl, ?_⟩
        · intro q hq
          rcases List.mem_cons.mp hq with hq | hq
          · rw [hq]
            decide
          · exact h1 q hq
        · simp only [Option.getD_some]
          rw [hxy, hy, ← hfr]
          simp only [concatRunes, List.append_assoc, List.singleton_append]
          exact congrArg (fun t => headerData ++ 32 :: t) h2
    · rw [if_neg hsp] at hp
      have hfr : x.drop headerData.length = fr := by simpa using hp
      refine ⟨[], by simp, Or.inl rfl, ?_⟩
      simp only [Option.getD_some, concatRunes, List.append_nil]
      rw [← hfr]
      exact hxy

/-- The iteration that follows an error record returns no frame. -/
theorem loop_seen_frame (f : Nat) (s : streamReader T) (c : Nat) (npl : Option ByteSeq)
    (r : RawResult) (s1 : streamReader T)
    (hloop : processLinesLoop f s c true npl = some (r, s1)) : r.frame = none := by
  cases f with
  | zero => simp [processLinesLoop] at hloop
  | succ f =>
    by_cases h : 10 ∈ s.reader.buf
    · obtain ⟨l, rest, hsplit, hl⟩ := List.eq_append_cons_of_mem h
      rw [loop_afterError f s c npl l rest hl hsplit] at hloop
      split at hloop <;>
      · simp only [Option.some.injEq, Prod.mk.injEq] at hloop
        rw [← hloop.1]
    · rw [loop_fail f s c true npl h] at hloop
      split at hloop <;>
      · simp only [Option.some.injEq, Prod.mk.injEq] at hloop
        rw [← hloop.1]

/-- A run of the scan loop that returns a frame has read non-data lines and then
a data line that is no error record; the frame is the payload of that line and
comes without error. -/
theorem loop_frame_trace (f : Nat) (s : streamReader T) (c : Nat) (h : Bool)
    (npl : Option ByteSeq) (r : RawResult) (s1 : streamReader T) (fr : ByteSeq)
    (hst : h = true ∨ npl = none)
    (hloop : processLinesLoop f s c h npl = some (r, s1)) (hfr : r.frame = some fr) :
    r.err = none ∧
    ∃ ls l, s.reader.buf = joinLines ls ++ (l ++ 10 :: s1.reader.buf) ∧
      (∀ x ∈ ls, nonDataLine x) ∧ 10 ∉ l ∧ isDataLine l = true ∧
      isErrorRecord l = false ∧ linePayload l = some fr := by
  induction f generalizing s c h npl with
  | zero => simp [processLinesLoop] at hloop
  | succ f ih =>
    cases h with
    | true =>
      rw [loop_seen_frame (f + 1) s c npl r s1 hloop] at hfr
      exact absurd hfr (by simp)
    | false =>
      have hnpl : npl = none := by
        rcases hst with h1 | h1
        · exact absurd h1 (by simp)
        · exact h1
      subst hnpl
      by_cases hnl : 10 ∈ s.reader.buf
      · obtain ⟨l, rest, hsplit, hl⟩ := List.eq_append_cons_of_mem hnl
        cases hd : isDataLine l with
        | false =>
          cases hw : s.errAccumulator.writeErr with
          | some e =>
            rw [loop_noise_writeFail f s c l rest e (nonDataLine_of_isDataLine hl hd)
              hsplit hw] at hloop
            simp only [Option.some.injEq, Prod.mk.injEq] at hloop
            rw [← hloop.1] at hfr
            exact absurd hfr (by simp)
          | none =>
            rw [loop_noise f s c l rest (nonDataLine_of_isDataLine hl hd) hsplit hw] at hloop
            by_cases hgt : (c + 1) % uintSize > s.emptyMessagesLimit
            · rw [if_pos hgt] at hloop
              simp only [Option.some.injEq, Prod.mk.injEq] at hloop
              rw [← hloop.1] at hfr
              exact absurd hfr (by simp)
            · rw [if_neg hgt] at hloop
              obtain ⟨hr, ls, l2, h1, h2, h3, h4, h5, h6⟩ :=
                ih ((s.advance rest).accumulate (trimmedLine l)) _ false none
                  (Or.inr rfl) hloop
              have h1b : rest = joinLines ls ++ (l2 ++ 10 :: s1.reader.buf) := h1
              refine ⟨hr, l :: ls, l2, ?_, ?_, h3, h4, h5, h6⟩
              · rw [hsplit, h1b]
                simp [joinLines]
              · intro x hx
                rcases List.mem_cons.mp hx with hx | hx
                · rw [hx]
                  exact nonDataLine_of_isDataLine hl hd
                · exact h2 x hx
        | true =>
          cases he : isErrorRecord l with
          | false =>
            rw [loop_dataLine f s c none l rest hl hsplit hd he] at hloop
            by_cases hdone : (linePayload l).getD [] = doneMarker
            · rw [if_pos hdone] at hloop
              simp only [Option.some.injEq, Prod.mk.injEq] at hloop
              rw [← hloop.1] at hfr
              exact absurd hfr (by simp)
            · rw [if_neg hdone] at hloop
              simp only [Option.some.injEq, Prod.mk.injEq] at hloop
              obtain ⟨hr, hs1⟩ := hloop
              rw [← hr] at hfr
              refine ⟨by rw [← hr], [], l, ?_, by simp, hl, hd, he, hfr⟩
              rw [hsplit, ← hs1]
              simp [joinLines, streamReader.advance]
          | true =>
            cases hw : s.errAccumulator.writeErr with
            | some e =>
              rw [loop_errorLine_writeFail f s c none l rest e hl hsplit he hw] at hloop
              simp only [Option.some.injEq, Prod.mk.injEq] at hloop
              rw [← hloop.1] at hfr
              exact absurd hfr (by simp)
            | none =>
              rw [loop_errorLine f s c none l rest hl hsplit he hw] at hloop
              by_cases hgt : (c + 1) % uintSize > s.emptyMessagesLimit
              · rw [if_pos hgt] at hloop
                simp only [Option.some.injEq, Prod.mk.injEq] at hloop
                rw [← hloop.1] at hfr
                exact absurd hfr (by simp)
              · rw [if_neg hgt] at hloop
                rw [loop_seen_frame f _ _ _ r s1 hloop] at hfr
                exact absurd hfr (by simp)
      · rw [loop_fail f s c false none hnl] at hloop
        have hr : r.frame = none := by
          split at hloop <;>
          · simp only [Option.some.injEq, Prod.mk.injEq] at hloop
            rw [← hloop.1]
        rw [hr] at hfr
        exact absurd hfr (by simp)

/-! ## The claims -/

/-- C1: on an unfinished session whose source is the lines `data: p` for payloads
`p1 .. pn` (each non-empty, without newline or surrounding white space, not
`[DONE]`, not starting with the error prefix) followed by `data: [DONE]`, the
first `n` pulls return `p1 .. pn` in order without error, pull `n + 1` fails with
`io.EOF`, and so does every later pull, whatever the tolerance limit is. -/
theorem C1_frames_then_end_of_stream (s : streamReader T) (ps : List ByteSeq)
    (rest : ByteSeq) (m : Nat) (hfin : s.isFinished = false)
    (hps : ∀ p ∈ ps, framePayload p) (hbuf : s.reader.buf = dataStream ps ++ rest) :
    recvRawN (ps.length + 1 + m) s =
      some (ps.map (fun p => (⟨some p, none⟩ : RawResult)) ++
          List.replicate (m + 1) ⟨none, some StreamError.EOF⟩,
        { s.advance rest with isFinished := true }) :=
  recvRawN_dataStream ps s rest m hfin hps hbuf

/-- Witness of C1: limit 1, the lines `data: {"id":1}` and `data: [DONE]`, three
pulls. -/
theorem C1_frames_then_end_of_stream_witness :
    recvRawN 3 (sampleSession 1 (dataStream [idPayload])) =
      some ([⟨some idPayload, none⟩, ⟨none, some StreamError.EOF⟩,
          ⟨none, some StreamError.EOF⟩],
        { (sampleSession 1 (dataStream [idPayload])).advance [] with isFinished := true }) :=
  C1_frames_then_end_of_stream (sampleSession 1 (dataStream [idPayload])) [idPayload] [] 1
    rfl (by decide) (List.append_nil _).symm

/-- C2: when the terminal flag is set a pull returns no frame and `io.EOF` and
leaves the whole session as it was (source, accumulator and flag); so does every
sequence of further pulls. -/
theorem C2_finished_stays_finished (s : streamReader T) (h : s.isFinished = true) :
    s.RecvRaw = some (⟨none, some StreamError.EOF⟩, s) ∧
    ∀ n, recvRawN n s = some (List.replicate n ⟨none, some StreamError.EOF⟩, s) :=
  ⟨RecvRaw_finished s h, fun n => recvRawN_finished n s h⟩

/-- Witness of C2: a finished session that still has a data line in its source. -/
theorem C2_finished_stays_finished_witness :
    ({ sampleSession 1 (dataStream [idPayload]) with isFinished := true }).RecvRaw =
        some (⟨none, some StreamError.EOF⟩,
          { sampleSession 1 (dataStream [idPayload]) with isFinished := true }) ∧
    ∀ n, recvRawN n { sampleSession 1 (dataStream [idPayload]) with isFinished := true } =
      some (List.replicate n ⟨none, some StreamError.EOF⟩,
        { sampleSession 1 (dataStream [idPayload]) with isFinished := true }) :=
  C2_finished_stays_finished _ rfl

/-- C3, as stated, fails: with limit 0 the error record itself exceeds the
tolerance and the pull fails with `ErrTooManyEmptyStreamMessages`, although the
body decodes; and with an accumulator that refuses the write the pull fails with
the write error. -/
theorem C3_counterexample :
    (sampleSession 0 (dataLine [32] errorBody [])).RecvRaw.map Prod.fst =
        some ⟨none, some StreamError.ErrTooManyEmptyStreamMessages⟩ ∧
    sampleUnmarshaler.UnmarshalError errorBody =
        (some ⟨some ⟨[120], [121]⟩⟩, none) ∧
    ({ sampleSession 1 (dataLine [32] errorBody []) with
        errAccumulator := ⟨[], some (StreamError.other 7)⟩ }).RecvRaw.map Prod.fst =
      some ⟨none, some (StreamError.other 7)⟩ := by
  decide

/-- C3, amended: for every tolerance limit of at least 1 and all further bytes,
on an unfinished session with an empty accumulator that accepts writes, whose
next line is `data: {"error":{"message":"x","type":"y"}}`, the pull fails with
the wrapped remote error carrying the error object that the unmarshaler decodes
from exactly these bytes. -/
theorem C3_remote_error_reported (s : streamReader T) (rest : ByteSeq) (E : ErrorResponse)
    (hfin : s.isFinished = false) (hL : 1 ≤ s.emptyMessagesLimit)
    (hacc : s.errAccumulator = ⟨[], none⟩)
    (hbuf : s.reader.buf = dataLine [32] errorBody [] ++ rest)
    (hdec : s.unmarshaler.UnmarshalError errorBody = (some E, none)) :
    ∃ s1, s.RecvRaw = some (⟨none, some (StreamError.wrapped E.Error)⟩, s1) := by
  have hw : s.errAccumulator.writeErr = none := by rw [hacc]
  have hb : s.errAccumulator.buf = [] := by rw [hacc]
  have hmod : (0 + 1) % uintSize = 1 := by decide
  have hfuel : s.reader.buf.length + 1 = (rest.length + 42) + 1 + 1 := by
    rw [hbuf]
    simp [dataLine, headerData, errorBody]
  have hu : ((s.advance rest).accumulate errorBody).unmarshalError = some E := by
    rw [unmarshalError_accumulate, hb, List.nil_append, hdec]
    simp [errorBody]
  obtain ⟨s1, h1⟩ := loop_seenError (rest.length + 42) _ 1 (some errorBody) E hu
  refine ⟨s1, ?_⟩
  rw [RecvRaw_unfinished s hfin, hfuel,
    loop_errorRecord _ s 0 none [32] errorBody [] rest inline_single (Or.inr rfl) inline_nil
      (by decide) (by decide) hbuf hw, hmod, if_neg (by omega), h1]

/-- Witness of C3 amended: limit 1, the error line followed by `data: [DONE]`;
the error carries message `x` and type `y`. -/
theorem C3_remote_error_reported_witness :
    ∃ s1, (sampleSession 1 (dataLine [32] errorBody [] ++ dataStream [])).RecvRaw =
      some (⟨none, some (StreamError.wrapped (some ⟨[120], [121]⟩))⟩, s1) :=
  C3_remote_error_reported (sampleSession 1 (dataLine [32] errorBody [] ++ dataStream []))
    (dataStream []) ⟨some ⟨[120], [121]⟩⟩ rfl (by decide) rfl rfl (by decide)

/-- C4, as stated, fails at the largest limit: with `emptyMessagesLimit` the
maximal `uint` and as many blank lines as a `uint` has values (one more than the
limit), the counter wraps to zero instead of exceeding the limit, and the pull
ends with the read failure of the source, not with
`ErrTooManyEmptyStreamMessages`. -/
theorem C4_counterexample :
    (List.replicate uintSize ([] : ByteSeq)).length = (uintSize - 1) + 1 ∧
    (∀ l ∈ List.replicate uintSize ([] : ByteSeq), nonDataLine l) ∧
    (sampleSession (uintSize - 1) (joinLines (List.replicate uintSize []))).RecvRaw.map
      Prod.fst = some ⟨none, some StreamError.EOF⟩ := by
  refine ⟨?_, ?_, ?_⟩
  · rw [List.length_replicate]
    decide
  · intro l hl
    rw [List.eq_of_mem_replicate hl]
    decide
  · exact RecvRaw_blank_run_maxLimit uintSize _ rfl rfl rfl rfl rfl

/-- C4, amended: for every tolerance limit `L` below the maximal `uint` and every
unfinished session whose source begins with `L + 1` newline-terminated lines none
of which starts, once trimmed, with the marker `data:`, the pull fails with
`ErrTooManyEmptyStreamMessages`, provided accumulator writes do not fail; the
source is then read up to the end of these lines and their trimmed contents are
accumulated. -/
theorem C4_too_many_noise_lines (s : streamReader T) (ls : List ByteSeq) (rest : ByteSeq)
    (hfin : s.isFinished = false) (hL : s.emptyMessagesLimit + 1 < uintSize)
    (hlen : ls.length = s.emptyMessagesLimit + 1) (hls : ∀ l ∈ ls, nonDataLine l)
    (hbuf : s.reader.buf = joinLines ls ++ rest)
    (hw : s.errAccumulator.writeErr = none) :
    s.RecvRaw = some (⟨none, some StreamError.ErrTooManyEmptyStreamMessages⟩,
      (s.advance rest).accumulate (trimmedLines ls)) := by
  have hne : ls ≠ [] := by
    intro h
    rw [h] at hlen
    simp at hlen
  have hf : ls.length ≤ s.reader.buf.length + 1 := by
    have := length_joinLines_le ls
    rw [hbuf, List.length_append]
    omega
  rw [RecvRaw_unfinished s hfin]
  exact loop_tooMany ls _ s 0 rest hls hbuf hw (by omega) hne hL hf

/-- Witness of C4 amended: limit 2 and three blank lines. -/
theorem C4_too_many_noise_lines_witness :
    (sampleSession 2 (joinLines [[], [], []])).RecvRaw =
      some (⟨none, some StreamError.ErrTooManyEmptyStreamMessages⟩,
        ((sampleSession 2 (joinLines [[], [], []])).advance []).accumulate
          (trimmedLines [[], [], []])) :=
  C4_too_many_noise_lines (sampleSession 2 (joinLines [[], [], []])) [[], [], []] [] rfl
    (by decide) rfl (by decide) rfl rfl

/-- C5, as stated, fails: with limit 2, two blank lines and then a valid data
line, a session whose accumulator refuses writes fails with the write error at
the first blank line. -/
theorem C5_counterexample :
    ({ sampleSession 2 (joinLines [[], []] ++ dataLine [32] idPayload []) with
        errAccumulator := ⟨[], some (StreamError.other 7)⟩ }).RecvRaw.map Prod.fst =
      some ⟨none, some (StreamError.other 7)⟩ := by
  decide

/-- C5, amended: for every tolerance limit `L`, every `k ≤ L` and every frame
payload `p`, on an unfinished session whose source begins with `k` blank lines
followed by the line `data: p`, the pull returns exactly `p` without error,
provided accumulator writes do not fail. -/
theorem C5_frame_after_blank_lines (s : streamReader T) (ls : List ByteSeq)
    (p rest : ByteSeq) (hfin : s.isFinished = false)
    (hk : ls.length ≤ s.emptyMessagesLimit) (hls : ∀ l ∈ ls, blankLine l)
    (hp : framePayload p)
    (hbuf : s.reader.buf = joinLines ls ++ (dataLine [32] p [] ++ rest))
    (hw : s.errAccumulator.writeErr = none) :
    ∃ s1, s.RecvRaw = some (⟨some p, none⟩, s1) := by
  obtain ⟨f, hf⟩ := fuel_split s ls _ hbuf
  refine ⟨((s.advance (dataLine [32] p [] ++ rest)).accumulate (trimmedLines ls)).advance
    rest, ?_⟩
  rw [RecvRaw_unfinished s hfin, hf,
    loop_noise_run ls (f + 1) s 0 _ (fun l hl => blankLine_nonData (hls l hl)) hbuf
      (Or.inr hw) (count_within _ _ hk) (by decide),
    loop_data f _ _ none [32] p [] rest inline_single (Or.inr rfl) inline_nil hp.1 hp.2.2 rfl,
    if_neg hp.2.1]

/-- Witness of C5 amended: limit 2, two blank lines, then `data: {"id":1}`. -/
theorem C5_frame_after_blank_lines_witness :
    ∃ s1, (sampleSession 2 (joinLines [[], []] ++ (dataLine [32] idPayload [] ++ []))).RecvRaw =
      some (⟨some idPayload, none⟩, s1) :=
  C5_frame_after_blank_lines
    (sampleSession 2 (joinLines [[], []] ++ (dataLine [32] idPayload [] ++ [])))
    [[], []] idPayload [] rfl (by decide) (by decide) (by decide) rfl rfl

/-- C6: for every frame payload `p` the pull on an unfinished session returns the
same frame, exactly `p`, whether the next line is `data:p`, `data: p` or
`data:  p  ` (two spaces before and after). -/
theorem C6_whitespace_tolerance (s : streamReader T) (p rest : ByteSeq)
    (hfin : s.isFinished = false) (hp : framePayload p)
    (hbuf : s.reader.buf = dataLine [] p [] ++ rest ∨
      s.reader.buf = dataLine [32] p [] ++ rest ∨
      s.reader.buf = dataLine [32, 32] p [32, 32] ++ rest) :
    s.RecvRaw = some (⟨some p, none⟩, s.advance rest) := by
  rcases hbuf with h | h | h
  · exact RecvRaw_frame s [] p [] rest hfin inline_nil (Or.inl rfl) inline_nil hp h
  · exact RecvRaw_frame s [32] p [] rest hfin inline_single (Or.inr rfl) inline_nil hp h
  · exact RecvRaw_frame s [32, 32] p [32, 32] rest hfin (by decide) (Or.inr rfl)
      (by decide) hp h

/-- Witness of C6: the line `data:  {"a":1}  `. -/
theorem C6_whitespace_tolerance_witness :
    (sampleSession 1 (dataLine [32, 32] aPayload [32, 32] ++ [])).RecvRaw =
      some (⟨some aPayload, none⟩,
        (sampleSession 1 (dataLine [32, 32] aPayload [32, 32] ++ [])).advance []) :=
  C6_whitespace_tolerance (sampleSession 1 (dataLine [32, 32] aPayload [32, 32] ++ []))
    aPayload [] rfl (by decide) (Or.inr (Or.inr rfl))

/-- C7, as stated, fails: the line `data:` + tab + `x` is returned as the frame
tab + `x`, which starts with a white-space byte; only a space right after the
marker makes the classifier trim the payload. -/
theorem C7_counterexample :
    (sampleSession 1 (headerData ++ [9, 120, 10])).RecvRaw.map Prod.fst =
        some ⟨some [9, 120], none⟩ ∧
    leadingSpace [9, 120] = some [9] := by
  decide

/-- C7, amended: for every session state and input the pull returns, and a frame
returned without error is the content of a data line with the marker removed:
the lines the pull read are non-data lines `ls` and then a data line `l` that is
no error record, the frame is the payload the classifier extracts from `l`, and
the trimmed line `l` is the marker, a run of white-space runes that is empty
unless a space follows the marker, and the frame. The frame has no trailing white
space and does not begin with a space byte (white space other than a space right
after the marker stays in the frame). -/
theorem C7_frame_shape (s : streamReader T) :
    ∃ r s1, s.RecvRaw = some (r, s1) ∧
      (r.err = none → ∀ fr, r.frame = some fr →
        (∃ ls l, s.reader.buf = joinLines ls ++ (l ++ 10 :: s1.reader.buf) ∧
          (∀ x ∈ ls, nonDataLine x) ∧ 10 ∉ l ∧ isDataLine l = true ∧
          isErrorRecord l = false ∧ linePayload l = some fr ∧
          ∃ rs, (∀ q ∈ rs, q ∈ spaceRunes) ∧ (rs = [] ∨ rs.head? = some [32]) ∧
            trimmedLine l = headerData ++ concatRunes rs ++ fr) ∧
        trailingSpace fr = none ∧ fr.head? ≠ some 32) := by
  obtain ⟨r, s1, hpull⟩ := RecvRaw_total s
  refine ⟨r, s1, hpull, fun _ fr hfr => ?_⟩
  by_cases hfin : s.isFinished = true
  · rw [RecvRaw_finished s hfin] at hpull
    simp only [Option.some.injEq, Prod.mk.injEq] at hpull
    rw [← hpull.1] at hfr
    simp at hfr
  · rw [RecvRaw_unfinished s (by simpa using hfin)] at hpull
    obtain ⟨_, ls, l, h1, h2, h3, h4, h5, h6⟩ :=
      loop_frame_trace _ s 0 false none r s1 fr (Or.inr rfl) hpull hfr
    exact ⟨⟨ls, l, h1, h2, h3, h4, h5, h6, linePayload_decomp l fr h4 h6⟩,
      loop_frame_shape _ s 0 false none r s1 fr hpull hfr⟩

/-- Witness of C7 amended: the frame returned for the line `data:  {"a":1}  ` is
the payload of that line. -/
theorem C7_frame_shape_witness :
    (sampleSession 1 (dataLine [32, 32] aPayload [32, 32] ++ [])).RecvRaw =
        some (⟨some aPayload, none⟩,
          (sampleSession 1 (dataLine [32, 32] aPayload [32, 32] ++ [])).advance []) ∧
    (∃ ls l, (sampleSession 1 (dataLine [32, 32] aPayload [32, 32] ++ [])).reader.buf =
        joinLines ls ++ (l ++ 10 :: []) ∧
      (∀ x ∈ ls, nonDataLine x) ∧ 10 ∉ l ∧ isDataLine l = true ∧
      isErrorRecord l = false ∧ linePayload l = some aPayload ∧
      ∃ rs, (∀ q ∈ rs, q ∈ spaceRunes) ∧ (rs = [] ∨ rs.head? = some [32]) ∧
        trimmedLine l = headerData ++ concatRunes rs ++ aPayload) ∧
    trailingSpace aPayload = none ∧ aPayload.head? ≠ some 32 := by
  obtain ⟨r, s1, hpull, hshape⟩ :=
    C7_frame_shape (sampleSession 1 (dataLine [32, 32] aPayload [32, 32] ++ []))
  have h := RecvRaw_frame (sampleSession 1 (dataLine [32, 32] aPayload [32, 32] ++ []))
    [32, 32] aPayload [32, 32] [] rfl (by decide) (Or.inr rfl) (by decide) (by decide) rfl
  rw [h] at hpull
  simp only [Option.some.injEq, Prod.mk.injEq] at hpull
  obtain ⟨hr, hs1⟩ := hpull
  subst hr
  subst hs1
  exact ⟨h, hshape rfl aPayload rfl⟩

/-- C8: on an unfinished session, when the pull reads at most
`emptyMessagesLimit` non-data lines (the accumulator taking their trimmed
contents) and the next read fails with `e`, the source's own `io.EOF` included,
and the bytes accumulated at that moment are empty or do not decode to an error
object, the pull fails with exactly `e` and the terminal flag stays unset. -/
theorem C8_read_failure_propagated (s : streamReader T) (ls : List ByteSeq)
    (tail : ByteSeq) (e : StreamError) (hfin : s.isFinished = false)
    (he : s.reader.err = e) (hls : ∀ l ∈ ls, nonDataLine l)
    (hk : ls.length ≤ s.emptyMessagesLimit) (htail : 10 ∉ tail)
    (hbuf : s.reader.buf = joinLines ls ++ tail)
    (hw : ls = [] ∨ s.errAccumulator.writeErr = none)
    (hdec : s.errAccumulator.buf ++ trimmedLines ls = [] ∨
      (s.unmarshaler.UnmarshalError (s.errAccumulator.buf ++ trimmedLines ls)).2 ≠ none ∨
      (s.unmarshaler.UnmarshalError (s.errAccumulator.buf ++ trimmedLines ls)).1 = none) :
    s.RecvRaw = some (⟨none, some e⟩, (s.advance []).accumulate (trimmedLines ls)) ∧
    ((s.advance []).accumulate (trimmedLines ls)).isFinished = false := by
  have hu : ((s.advance tail).accumulate (trimmedLines ls)).unmarshalError = none := by
    rw [unmarshalError_accumulate]
    rcases hdec with h | h | h
    · simp [h]
    · simp [h]
    · by_cases h0 : (s.errAccumulator.buf ++ trimmedLines ls).length = 0
      · rw [if_pos h0]
      · rw [if_neg h0, h]
        simp
  refine ⟨?_, hfin⟩
  rw [RecvRaw_noise_then_fail s ls tail hfin hls hk htail hbuf hw, hu, he]

/-- Witness of C8: limit 2, the non-data line `x`, then the unfinished line `d`
and the end of the source; the accumulated byte `x` does not decode. -/
theorem C8_read_failure_propagated_witness :
    (sampleSession 2 (joinLines [[120]] ++ [100])).RecvRaw =
        some (⟨none, some StreamError.EOF⟩,
          ((sampleSession 2 (joinLines [[120]] ++ [100])).advance []).accumulate
            (trimmedLines [[120]])) ∧
    (((sampleSession 2 (joinLines [[120]] ++ [100])).advance []).accumulate
      (trimmedLines [[120]])).isFinished = false :=
  C8_read_failure_propagated (sampleSession 2 (joinLines [[120]] ++ [100])) [[120]] [100]
    StreamError.EOF rfl rfl (by decide) (by decide) (by decide) rfl (Or.inr rfl)
    (Or.inr (Or.inl (by decide)))

/-- C9: when the pull reads non-data lines within the tolerance and the next read
fails with `e`, and the bytes accumulated at that moment (those of earlier pulls
followed by the trimmed contents of these lines) are non-empty and decode to an
error object `E`, the pull fails with the wrapped remote error carrying `E`, not
with `e`. -/
theorem C9_remote_error_preferred (s : streamReader T) (ls : List ByteSeq)
    (tail : ByteSeq) (E : ErrorResponse) (hfin : s.isFinished = false)
    (hls : ∀ l ∈ ls, nonDataLine l) (hk : ls.length ≤ s.emptyMessagesLimit)
    (htail : 10 ∉ tail) (hbuf : s.reader.buf = joinLines ls ++ tail)
    (hw : ls = [] ∨ s.errAccumulator.writeErr = none)
    (hne : s.errAccumulator.buf ++ trimmedLines ls ≠ [])
    (hdec : s.unmarshaler.UnmarshalError (s.errAccumulator.buf ++ trimmedLines ls) =
      (some E, none)) :
    s.RecvRaw = some (⟨none, some (StreamError.wrapped E.Error)⟩,
      (s.advance []).accumulate (trimmedLines ls)) := by
  have hu : ((s.advance tail).accumulate (trimmedLines ls)).unmarshalError = some E := by
    have h0 : ¬ (s.errAccumulator.buf ++ trimmedLines ls).length = 0 :=
      fun h => hne (List.length_eq_zero.mp h)
    rw [unmarshalError_accumulate, if_neg h0, hdec]
    simp
  rw [RecvRaw_noise_then_fail s ls tail hfin hls hk htail hbuf hw, hu]

/-- Witness of C9: limit 2, the error body spread over two lines without the
marker, then the end of the source with `io.EOF`. -/
theorem C9_remote_error_preferred_witness :
    (sampleSession 2 (joinLines [errorBody.take 9, errorBody.drop 9] ++ [])).RecvRaw =
      some (⟨none, some (StreamError.wrapped (some ⟨[120], [121]⟩))⟩,
        ((sampleSession 2 (joinLines [errorBody.take 9, errorBody.drop 9] ++ [])).advance
          []).accumulate (trimmedLines [errorBody.take 9, errorBody.drop 9])) :=
  C9_remote_error_preferred
    (sampleSession 2 (joinLines [errorBody.take 9, errorBody.drop 9] ++ []))
    [errorBody.take 9, errorBody.drop 9] [] ⟨some ⟨[120], [121]⟩⟩ rfl (by decide)
    (by decide) (by decide) rfl (Or.inr rfl) (by decide) (by decide)

/-- C10 (the code departs from the claim): with limit 1, the line
`data: {"error":{` followed by the line `"message":"x"}}`, the pull consumes the
error record, the accumulated bytes do not decode, the second read succeeds, and
`RecvRaw` returns neither a frame nor an error. -/
theorem C10_error_record_without_error :
    errorPrefix <+: errorPrefix ++ [123] ∧
    (sampleSession 1 (dataLine [32] (errorPrefix ++ [123]) [] ++
        joinLines [ascii "\"message\":\"x\"\x7d\x7d"])).RecvRaw.map Prod.fst =
      some ⟨none, none⟩ := by
  decide

/-- C11: `Recv` refines `RecvRaw`. On every session both return, with the same
session afterwards; when `RecvRaw` fails with `e`, `Recv` gives the zero value
and the same `e`; when `RecvRaw` gives no error, `Recv` gives what the
unmarshaler makes of the frame, value and error. -/
theorem C11_Recv_refines_RecvRaw [Inhabited T] (s : streamReader T) :
    ∃ raw s1, s.RecvRaw = some (raw, s1) ∧
      ∃ resp err, s.Recv = some ((resp, err), s1) ∧
        (∀ e, raw.err = some e → resp = default ∧ err = some e) ∧
        (raw.err = none →
          (resp, err) = s.unmarshaler.Unmarshal (raw.frame.getD []) default) := by
  obtain ⟨raw, s1, hpull⟩ := RecvRaw_total s
  have hu := (RecvRaw_preserves s s1 raw hpull).1
  refine ⟨raw, s1, hpull, ?_⟩
  cases herr : raw.err with
  | some e =>
    refine ⟨default, some e, ?_, ?_, ?_⟩
    · simp [streamReader.Recv, hpull, herr]
    · intro e2 he2
      exact ⟨rfl, he2.symm ▸ rfl⟩
    · intro h
      exact absurd h (by simp)
  | none =>
    refine ⟨(s.unmarshaler.Unmarshal (raw.frame.getD []) default).1,
      (s.unmarshaler.Unmarshal (raw.frame.getD []) default).2, ?_, ?_, ?_⟩
    · simp [streamReader.Recv, hpull, herr, hu]
    · intro e he
      exact absurd he (by simp)
    · intro _
      rfl

/-- Witness of C11: with an unmarshaler that decodes only `{"id":1}`, the typed
pull gives `1` on the line `data: {"id":1}`, the zero value with the error of the
unmarshaler on the line `data: {"a":1}`, and the zero value with `io.EOF` on the
line `data: [DONE]`. -/
theorem C11_Recv_refines_RecvRaw_witness :
    (∃ raw s1, (idSession 1 (dataStream [idPayload, aPayload])).RecvRaw = some (raw, s1) ∧
      ∃ resp err, (idSession 1 (dataStream [idPayload, aPayload])).Recv =
          some ((resp, err), s1) ∧
        (∀ e, raw.err = some e → resp = default ∧ err = some e) ∧
        (raw.err = none →
          (resp, err) = (idSession 1 (dataStream [idPayload, aPayload])).unmarshaler.Unmarshal
            (raw.frame.getD []) default)) ∧
    (idSession 1 (dataStream [idPayload, aPayload])).Recv.map Prod.fst = some (1, none) ∧
    (idSession 1 (dataStream [aPayload])).Recv.map Prod.fst =
      some (0, some (StreamError.other 2)) ∧
    (idSession 1 (dataStream [])).Recv.map Prod.fst = some (0, some StreamError.EOF) :=
  ⟨C11_Recv_refines_RecvRaw (idSession 1 (dataStream [idPayload, aPayload])),
    by decide, by decide, by decide⟩

/-- C12: when accumulator writes append and never fail, every pull returns, and
the accumulated bytes afterwards are the bytes before the call followed by what
the lines read by the call contribute, in reading order: the trimmed content of
every non-data line and then, when an error record is read, its payload; a data
line returned as a frame, the line `[DONE]` and a line read after the error
record contribute nothing. The lines read are the newline-terminated lines `ls`
of the consumed part of the source; `tail` is an unterminated rest that a failing
read consumed. -/
theorem C12_accumulator_contents (s : streamReader T)
    (hw : s.errAccumulator.writeErr = none) :
    ∃ r s1 ls tail, s.RecvRaw = some (r, s1) ∧
      (∀ l ∈ ls, 10 ∉ l) ∧ 10 ∉ tail ∧ (tail = [] ∨ s1.reader.buf = []) ∧
      s.reader.buf = joinLines ls ++ tail ++ s1.reader.buf ∧
      s1.errAccumulator.buf = s.errAccumulator.buf ++ accumulatedBytes ls := by
  obtain ⟨r, s1, hpull⟩ := RecvRaw_total s
  by_cases hfin : s.isFinished = true
  · have h2 := hpull
    rw [RecvRaw_finished s hfin] at h2
    simp only [Option.some.injEq, Prod.mk.injEq] at h2
    obtain ⟨_, hs1⟩ := h2
    subst hs1
    exact ⟨r, s, [], [], hpull, by simp, by simp, Or.inl rfl, by simp [joinLines],
      by simp [accumulatedBytes]⟩
  · have h2 := hpull
    rw [RecvRaw_unfinished s (by simpa using hfin)] at h2
    obtain ⟨ls, tail, h⟩ := loop_acc_trace _ s 0 r s1 hw h2
    exact ⟨r, s1, ls, tail, hpull, h⟩

/-- Witness of C12: limit 2, a blank line, the error record
`data: {"error":{"message":"x","type":"y"}}` and the line `y`; afterwards the
accumulator holds the error body and the three lines are read. -/
theorem C12_accumulator_contents_witness :
    (∃ r s1 ls tail,
      (sampleSession 2 (joinLines [[], headerData ++ [32] ++ errorBody, [121]])).RecvRaw =
        some (r, s1) ∧
      (∀ l ∈ ls, 10 ∉ l) ∧ 10 ∉ tail ∧ (tail = [] ∨ s1.reader.buf = []) ∧
      (sampleSession 2 (joinLines [[], headerData ++ [32] ++ errorBody, [121]])).reader.buf =
        joinLines ls ++ tail ++ s1.reader.buf ∧
      s1.errAccumulator.buf =
        (sampleSession 2 (joinLines [[], headerData ++ [32] ++ errorBody,
          [121]])).errAccumulator.buf ++ accumulatedBytes ls) ∧
    (sampleSession 2 (joinLines [[], headerData ++ [32] ++ errorBody, [121]])).RecvRaw.map
        (fun x => (x.1, x.2.errAccumulator.buf, x.2.reader.buf)) =
      some (⟨none, some (StreamError.wrapped (some ⟨[120], [121]⟩))⟩, errorBody, []) :=
  ⟨C12_accumulator_contents
    (sampleSession 2 (joinLines [[], headerData ++ [32] ++ errorBody, [121]])) rfl,
    by decide⟩

/-- C13, as stated, fails: with limit 1 and the single block of the non-data line
`x` and the data line `data: {"id":1}`, a session whose accumulator refuses
writes fails with the write error at the non-data line and does not return the
payload of the block. -/
theorem C13_counterexample :
    ({ sampleSession 1 (blockStream [([[120]], idPayload)]) with
        errAccumulator := ⟨[], some (StreamError.other 7)⟩ }).RecvRaw.map Prod.fst =
      some ⟨none, some (StreamError.other 7)⟩ := by
  decide

/-- C13, amended: for every tolerance limit `L` and every source made of any
number of blocks, each of at most `L` non-data lines followed by a data line
`data: p` with a frame payload, on an unfinished session whose accumulator writes
do not fail, the successive pulls return the payloads of the blocks, one per
block and in order; none fails with `ErrTooManyEmptyStreamMessages`, however many
non-data lines the stream holds in total. -/
theorem C13_counter_is_per_pull (s : streamReader T) (bs : List (List ByteSeq × ByteSeq))
    (rest : ByteSeq) (hfin : s.isFinished = false)
    (hw : s.errAccumulator.writeErr = none)
    (hbs : ∀ b ∈ bs, b.1.length ≤ s.emptyMessagesLimit ∧ (∀ l ∈ b.1, nonDataLine l) ∧
      framePayload b.2)
    (hbuf : s.reader.buf = blockStream bs ++ rest) :
    ∃ s1, recvRawN bs.length s =
      some (bs.map (fun b => (⟨some b.2, none⟩ : RawResult)), s1) :=
  recvRawN_blocks bs s rest hfin hw hbs hbuf

/-- Witness of C13 amended: limit 1 and three blocks with one non-data line each,
three non-data lines in total. -/
theorem C13_counter_is_per_pull_witness :
    ∃ s1, recvRawN 3 (sampleSession 1 (blockStream
        [([[120]], idPayload), ([[]], aPayload), ([[121]], idPayload)] ++ [])) =
      some ([⟨some idPayload, none⟩, ⟨some aPayload, none⟩, ⟨some idPayload, none⟩], s1) :=
  C13_counter_is_per_pull (sampleSession 1 (blockStream
      [([[120]], idPayload), ([[]], aPayload), ([[121]], idPayload)] ++ []))
    [([[120]], idPayload), ([[]], aPayload), ([[121]], idPayload)] [] rfl rfl
    (by decide) rfl

/-- C14, as stated, fails in two ways. The line `data:` + tab + `[DONE]`, whose
payload without the marker and trimmed is `[DONE]`, is returned as a frame with
the tab and leaves the flag unset, because only a space after the marker makes
the classifier trim. And with limit 1, an error record followed by the line
`data: [DONE]`: the pull reads the sentinel line last, reports the remote error
and leaves the flag unset. -/
theorem C14_counterexample :
    ((sampleSession 1 (headerData ++ 9 :: doneMarker ++ [10])).RecvRaw.map
        (fun x => (x.1, x.2.isFinished, x.2.reader.buf)) =
      some (⟨some (9 :: doneMarker), none⟩, false, []) ∧
     TrimSpace (9 :: doneMarker) = some doneMarker) ∧
    (sampleSession 1 (dataLine [32] errorBody [] ++ dataLine [32] doneMarker [])).RecvRaw.map
        (fun x => (x.1, x.2.isFinished, x.2.reader.buf)) =
      some (⟨none, some (StreamError.wrapped (some ⟨[120], [121]⟩))⟩, false, []) := by
  decide

/-- C14, amended: a pull that starts with the flag unset returns, and it ends
with the flag set if and only if the last line it read is a data line whose
payload as the classifier extracts it (marker stripped, trimmed when a space
follows the marker) is exactly `[DONE]` and no line read before it in this pull
is an error record; it then returns `io.EOF`. Every other outcome leaves the flag
unset. The lines read are the lines `ls` and `l` of the consumed part of the
source. -/
theorem C14_flag_only_on_sentinel (s : streamReader T) (hfin : s.isFinished = false) :
    ∃ r s1, s.RecvRaw = some (r, s1) ∧
      (s1.isFinished = true ↔
        ∃ ls l, s.reader.buf = joinLines ls ++ (l ++ 10 :: s1.reader.buf) ∧
          (∀ x ∈ ls, 10 ∉ x ∧ isErrorRecord x = false) ∧ 10 ∉ l ∧
          isDataLine l = true ∧ (linePayload l).getD [] = doneMarker) ∧
      (s1.isFinished = true → r = ⟨none, some StreamError.EOF⟩) := by
  obtain ⟨r, s1, hpull⟩ := RecvRaw_total s
  have h2 := hpull
  rw [RecvRaw_unfinished s hfin] at h2
  refine ⟨r, s1, hpull, ⟨?_, ?_⟩, ?_⟩
  · intro hset
    obtain ⟨_, _, ls, l, h3, h4, h5, h6, h7⟩ :=
      loop_flag_only_done _ s 0 false none r s1 hfin (Or.inr rfl) h2 hset
    exact ⟨ls, l, h3, fun x hx => ⟨(h4 x hx).1, by
      simp [isErrorRecord, show isDataLine x = false from (h4 x hx).2]⟩, h5, h6, h7⟩
  · rintro ⟨ls, l, h3, h4, h5, h6, h7⟩
    exact loop_done_reached ls l s1.reader.buf _ s 0 r s1 h4 h5 h6 h7 h3 h2 rfl
  · intro hset
    exact (loop_flag_only_done _ s 0 false none r s1 hfin (Or.inr rfl) h2 hset).2.1

/-- Witness of C14 amended: limit 1 and the single line `data: [DONE]`; the flag
is set and the pull returns `io.EOF`. -/
theorem C14_flag_only_on_sentinel_witness :
    (∃ r s1, (sampleSession 1 (dataStream [])).RecvRaw = some (r, s1) ∧
      (s1.isFinished = true ↔
        ∃ ls l, (sampleSession 1 (dataStream [])).reader.buf =
            joinLines ls ++ (l ++ 10 :: s1.reader.buf) ∧
          (∀ x ∈ ls, 10 ∉ x ∧ isErrorRecord x = false) ∧ 10 ∉ l ∧
          isDataLine l = true ∧ (linePayload l).getD [] = doneMarker) ∧
      (s1.isFinished = true → r = ⟨none, some StreamError.EOF⟩)) ∧
    (sampleSession 1 (dataStream [])).RecvRaw.map (fun x => (x.1, x.2.isFinished)) =
      some (⟨none, some StreamError.EOF⟩, true) :=
  ⟨C14_flag_only_on_sentinel (sampleSession 1 (dataStream [])) rfl, by decide⟩

/-- C15: on an unfinished session with an empty accumulator whose remaining input
is the record `data: p` without a final newline (`p` a frame payload), the pull
returns no frame and fails with the failure of the source, and so does every
later pull: `p` is never delivered. -/
theorem C15_unterminated_record_lost (s : streamReader T) (p : ByteSeq) (n : Nat)
    (hfin : s.isFinished = false) (hacc : s.errAccumulator.buf = [])
    (hp : framePayload p) (hbuf : s.reader.buf = headerData ++ [32] ++ p) :
    recvRawN (n + 1) s =
      some (List.replicate (n + 1) ⟨none, some s.reader.err⟩, s.advance []) := by
  have hnl : 10 ∉ s.reader.buf := by
    rw [hbuf]
    simp [headerData, hp.1.2.1]
  exact recvRawN_succ n s _ _ _ _ (RecvRaw_exhausted s hfin hacc hnl)
    (recvRawN_exhausted n s hfin hacc)

/-- Witness of C15: the input `data: {"id":1}` without newline, two pulls. -/
theorem C15_unterminated_record_lost_witness :
    recvRawN 2 (sampleSession 1 (headerData ++ [32] ++ idPayload)) =
      some ([⟨none, some StreamError.EOF⟩, ⟨none, some StreamError.EOF⟩],
        (sampleSession 1 (headerData ++ [32] ++ idPayload)).advance []) :=
  C15_unterminated_record_lost (sampleSession 1 (headerData ++ [32] ++ idPayload))
    idPayload 1 rfl rfl (by decide) rfl

/-- C16: for every tolerance limit and every unfinished session whose next line is
the marker `data:` followed only by white space (any run of white-space runes
other than the newline) and the newline, the pull returns an empty, non-nil frame
without error; the accumulator and the terminal flag are left as they were. -/
theorem C16_empty_payload_is_a_frame (s : streamReader T) (rs : List ByteSeq)
    (rest : ByteSeq) (hfin : s.isFinished = false)
    (hrs : ∀ r ∈ rs, r ∈ spaceRunes ∧ r ≠ [10])
    (hbuf : s.reader.buf = headerData ++ concatRunes rs ++ 10 :: rest) :
    s.RecvRaw = some (⟨some [], none⟩, s.advance rest) ∧
    (s.advance rest).errAccumulator = s.errAccumulator ∧
    (s.advance rest).isFinished = false :=
  ⟨RecvRaw_empty_payload s rs rest hfin hrs hbuf, rfl, hfin⟩

/-- Witness of C16: limit 0 and the line `data:` followed by a space and a tab. -/
theorem C16_empty_payload_is_a_frame_witness :
    (sampleSession 0 (headerData ++ concatRunes [[32], [9]] ++ 10 :: [])).RecvRaw =
        some (⟨some [], none⟩,
          (sampleSession 0 (headerData ++ concatRunes [[32], [9]] ++ 10 :: [])).advance []) ∧
    ((sampleSession 0 (headerData ++ concatRunes [[32], [9]] ++ 10 :: [])).advance
      []).errAccumulator =
      (sampleSession 0 (headerData ++ concatRunes [[32], [9]] ++ 10 :: [])).errAccumulator ∧
    ((sampleSession 0 (headerData ++ concatRunes [[32], [9]] ++ 10 :: [])).advance
      []).isFinished = false :=
  C16_empty_payload_is_a_frame
    (sampleSession 0 (headerData ++ concatRunes [[32], [9]] ++ 10 :: [])) [[32], [9]] []
    rfl (by decide) rfl

/-- C17: for every tolerance limit `L` that a `uint` can hold, take a pull that
reads `L` non-data lines and then an error record, the accumulator taking their
contents, and let the next line be the data line `data: p` with a frame payload.
The pull returns; it ends with `ErrTooManyEmptyStreamMessages` whenever `L` is
below the maximal `uint`; and whenever it ends so, the next pull starts without an
error prefix and returns `p` as a frame with no error. -/
theorem C17_error_detection_reset (s : streamReader T) (ls : List ByteSeq)
    (el p rest : ByteSeq) (hfin : s.isFinished = false)
    (hL : s.emptyMessagesLimit < uintSize) (hlen : ls.length = s.emptyMessagesLimit)
    (hls : ∀ l ∈ ls, nonDataLine l) (hel : 10 ∉ el) (he : isErrorRecord el = true)
    (hp : framePayload p) (hw : s.errAccumulator.writeErr = none)
    (hbuf : s.reader.buf = joinLines ls ++ (el ++ 10 :: (dataLine [32] p [] ++ rest))) :
    ∃ r1 s1, s.RecvRaw = some (r1, s1) ∧
      (s.emptyMessagesLimit + 1 < uintSize →
        r1 = ⟨none, some StreamError.ErrTooManyEmptyStreamMessages⟩) ∧
      (r1 = ⟨none, some StreamError.ErrTooManyEmptyStreamMessages⟩ →
        ∃ s2, s1.RecvRaw = some (⟨some p, none⟩, s2)) := by
  obtain ⟨f, hf⟩ := fuel_split s ls _ hbuf
  have hcount : (0 + ls.length) % uintSize = s.emptyMessagesLimit := by
    rw [Nat.zero_add, hlen]
    exact Nat.mod_eq_of_lt hL
  have hrun : s.RecvRaw = processLinesLoop (f + 1)
      ((s.advance (el ++ 10 :: (dataLine [32] p [] ++ rest))).accumulate (trimmedLines ls))
      s.emptyMessagesLimit false none := by
    rw [RecvRaw_unfinished s hfin, hf,
      loop_noise_run ls (f + 1) s 0 _ hls hbuf (Or.inr hw)
        (count_within _ _ (Nat.le_of_eq hlen)) (by decide), hcount]
  rw [loop_errorLine f ((s.advance (el ++ 10 :: (dataLine [32] p [] ++ rest))).accumulate
    (trimmedLines ls)) _ none el (dataLine [32] p [] ++ rest) hel rfl he hw] at hrun
  by_cases hmax : s.emptyMessagesLimit + 1 < uintSize
  · have hc : (s.emptyMessagesLimit + 1) % uintSize > s.emptyMessagesLimit := by
      rw [Nat.mod_eq_of_lt hmax]
      omega
    have h1 : s.RecvRaw = some (⟨none, some StreamError.ErrTooManyEmptyStreamMessages⟩,
        (((s.advance (el ++ 10 :: (dataLine [32] p [] ++ rest))).accumulate
          (trimmedLines ls)).advance (dataLine [32] p [] ++ rest)).accumulate
            ((linePayload el).getD [])) := by
      rw [hrun]
      exact if_pos hc
    have h2 := RecvRaw_frame
      ((((s.advance (el ++ 10 :: (dataLine [32] p [] ++ rest))).accumulate
        (trimmedLines ls)).advance (dataLine [32] p [] ++ rest)).accumulate
          ((linePayload el).getD [])) [32] p [] rest hfin inline_single (Or.inr rfl)
      inline_nil hp rfl
    exact ⟨_, _, h1, fun _ => rfl, fun _ => ⟨_, h2⟩⟩
  · have hc : ¬ (s.emptyMessagesLimit + 1) % uintSize > s.emptyMessagesLimit := by
      have : s.emptyMessagesLimit + 1 = uintSize := by omega
      rw [this, Nat.mod_self]
      omega
    obtain ⟨r1, s1, hpull⟩ := RecvRaw_total s
    have h3 := hpull
    rw [hrun] at h3
    have h4 : processLinesLoop f
        ((((s.advance (el ++ 10 :: (dataLine [32] p [] ++ rest))).accumulate
          (trimmedLines ls)).advance (dataLine [32] p [] ++ rest)).accumulate
            ((linePayload el).getD []))
        ((s.emptyMessagesLimit + 1) % uintSize) true (linePayload el) = some (r1, s1) := by
      rw [← h3]
      exact (if_neg hc).symm
    have h5 := loop_seen_result f _ _ _ r1 s1
      (by simp [streamReader.advance, streamReader.accumulate, dataLine]) h4
    refine ⟨r1, s1, hpull, fun h => absurd h hmax, fun h => ?_⟩
    rw [h] at h5
    exact absurd rfl h5

/-- Witness of C17: limit 1, the non-data line `x`, the error record
`data: {"error":{"message":"x","type":"y"}}`, then `data: {"id":1}`; the first
pull ends with `ErrTooManyEmptyStreamMessages`, the second returns `{"id":1}`. -/
theorem C17_error_detection_reset_witness :
    (∃ r1 s1, (sampleSession 1 (joinLines [[120]] ++
        ((headerData ++ [32] ++ errorBody) ++ 10 ::
          (dataLine [32] idPayload [] ++ [])))).RecvRaw = some (r1, s1) ∧
      ((sampleSession 1 (joinLines [[120]] ++
        ((headerData ++ [32] ++ errorBody) ++ 10 ::
          (dataLine [32] idPayload [] ++ [])))).emptyMessagesLimit + 1 < uintSize →
        r1 = ⟨none, some StreamError.ErrTooManyEmptyStreamMessages⟩) ∧
      (r1 = ⟨none, some StreamError.ErrTooManyEmptyStreamMessages⟩ →
        ∃ s2, s1.RecvRaw = some (⟨some idPayload, none⟩, s2))) ∧
    (recvRawN 2 (sampleSession 1 (joinLines [[120]] ++
        ((headerData ++ [32] ++ errorBody) ++ 10 ::
          (dataLine [32] idPayload [] ++ []))))).map Prod.fst =
      some [⟨none, some StreamError.ErrTooManyEmptyStreamMessages⟩,
        ⟨some idPayload, none⟩] :=
  ⟨C17_error_detection_reset (sampleSession 1 (joinLines [[120]] ++
      ((headerData ++ [32] ++ errorBody) ++ 10 :: (dataLine [32] idPayload [] ++ []))))
    [[120]] (headerData ++ [32] ++ errorBody) idPayload [] rfl (by decide) rfl (by decide)
    (by decide) (by decide) (by decide) rfl rfl, by decide⟩

end StreamReader
